import Mathlib

/-
  Verification of the Midlife-Wealth-Tax optimization core.

  Shallow embedding of:
    - src/unnamed/part_000 (math layer: kappa, U2, lifetimeUtility, checkConstraints)
    - src/src/services/OptimizationService.js (solver, cache, warm start)
    - src/src/utils/ParameterValidator.js (parameter validation)

  JavaScript numbers are modelled by the type JS: an exact rational for every
  finite double, plus NaN and the two infinities.  Arithmetic on finite values
  is exact (rounding and overflow of finite-by-finite operations are not
  modelled); NaN/infinity propagation follows IEEE-754 as implemented by JS.
  Negative zero is not modelled (it is ===-equal to 0 and none of the modelled
  code distinguishes them).

  Math.exp / Math.pow / Math.log are transcendental, hence not exactly
  representable on rationals; they are modelled by an abstract structure
  MathFns whose fields satisfy the IEEE facts the code relies on
  (exp of a finite argument is a positive finite or +inf, exp does not
  overflow below 709, pow propagates a NaN base for nonzero exponents).
-/

namespace MWT

/-- A JavaScript number: a finite value (exact rational), NaN, +Infinity or -Infinity. -/
inductive JS where
  | fin (q : ℚ)
  | nan
  | inf
  | ninf
deriving Repr

/-- Decidable equality of JS values, comparing finite values by their
normalized numerator and denominator (the standard Rat DecidableEq instance
does not evaluate efficiently in proofs by reduction). -/
instance JS.instDecEq : DecidableEq JS := fun a b =>
  match a, b with
  | .fin p, .fin q =>
    if h1 : p.num = q.num then
      if h2 : p.den = q.den then .isTrue (congrArg JS.fin (Rat.ext h1 h2))
      else .isFalse (fun h => h2 (congrArg Rat.den (by cases h; rfl)))
    else .isFalse (fun h => h1 (congrArg Rat.num (by cases h; rfl)))
  | .fin _, .nan => .isFalse (fun h => JS.noConfusion h)
  | .fin _, .inf => .isFalse (fun h => JS.noConfusion h)
  | .fin _, .ninf => .isFalse (fun h => JS.noConfusion h)
  | .nan, .fin _ => .isFalse (fun h => JS.noConfusion h)
  | .nan, .nan => .isTrue rfl
  | .nan, .inf => .isFalse (fun h => JS.noConfusion h)
  | .nan, .ninf => .isFalse (fun h => JS.noConfusion h)
  | .inf, .fin _ => .isFalse (fun h => JS.noConfusion h)
  | .inf, .nan => .isFalse (fun h => JS.noConfusion h)
  | .inf, .inf => .isTrue rfl
  | .inf, .ninf => .isFalse (fun h => JS.noConfusion h)
  | .ninf, .fin _ => .isFalse (fun h => JS.noConfusion h)
  | .ninf, .nan => .isFalse (fun h => JS.noConfusion h)
  | .ninf, .inf => .isFalse (fun h => JS.noConfusion h)
  | .ninf, .ninf => .isTrue rfl

/-- Shorthand for embedding a rational literal as a JS number. -/
@[reducible] def J (q : ℚ) : JS := JS.fin q

/-- JS unary minus. -/
def jsNeg : JS → JS
  | .fin a => .fin (-a)
  | .nan => .nan
  | .inf => .ninf
  | .ninf => .inf

/-- JS addition (finite additions exact; IEEE infinity/NaN rules). -/
def jsAdd : JS → JS → JS
  | .fin a, .fin b => .fin (a + b)
  | .nan, _ => .nan
  | _, .nan => .nan
  | .inf, .ninf => .nan
  | .ninf, .inf => .nan
  | .inf, _ => .inf
  | _, .inf => .inf
  | .ninf, _ => .ninf
  | _, .ninf => .ninf

/-- JS subtraction, a - b = a + (-b) (exact in IEEE). -/
def jsSub (a b : JS) : JS := jsAdd a (jsNeg b)

/-- JS multiplication. -/
def jsMul : JS → JS → JS
  | .fin a, .fin b => .fin (a * b)
  | .nan, _ => .nan
  | _, .nan => .nan
  | .inf, .fin b => if 0 < b then .inf else if b < 0 then .ninf else .nan
  | .ninf, .fin b => if 0 < b then .ninf else if b < 0 then .inf else .nan
  | .fin a, .inf => if 0 < a then .inf else if a < 0 then .ninf else .nan
  | .fin a, .ninf => if 0 < a then .ninf else if a < 0 then .inf else .nan
  | .inf, .inf => .inf
  | .inf, .ninf => .ninf
  | .ninf, .inf => .ninf
  | .ninf, .ninf => .inf

/-- JS division (division by the unsigned zero of the model gives a signed infinity). -/
def jsDiv : JS → JS → JS
  | .nan, _ => .nan
  | _, .nan => .nan
  | .fin a, .fin b =>
      if b = 0 then (if 0 < a then .inf else if a < 0 then .ninf else .nan)
      else .fin (a / b)
  | .fin _, .inf => .fin 0
  | .fin _, .ninf => .fin 0
  | .inf, .fin b => if 0 ≤ b then .inf else .ninf
  | .ninf, .fin b => if 0 ≤ b then .ninf else .inf
  | .inf, .inf => .nan
  | .inf, .ninf => .nan
  | .ninf, .inf => .nan
  | .ninf, .ninf => .nan

instance : Neg JS := ⟨jsNeg⟩
instance : Add JS := ⟨jsAdd⟩
instance : Sub JS := ⟨jsSub⟩
instance : Mul JS := ⟨jsMul⟩
instance : Div JS := ⟨jsDiv⟩

/-- JS comparison a <= b (false whenever either side is NaN). -/
def jsLe : JS → JS → Bool
  | .nan, _ => false
  | _, .nan => false
  | .ninf, _ => true
  | _, .inf => true
  | .inf, _ => false
  | _, .ninf => false
  | .fin a, .fin b => a ≤ b

/-- JS comparison a < b (false whenever either side is NaN). -/
def jsLt : JS → JS → Bool
  | .nan, _ => false
  | _, .nan => false
  | .ninf, .ninf => false
  | .ninf, _ => true
  | .inf, _ => false
  | _, .inf => true
  | .fin _, .ninf => false
  | .fin a, .fin b => a < b

/-- JS comparison a >= b, which is IEEE b <= a. -/
def jsGe (a b : JS) : Bool := jsLe b a

/-- JS strict equality ===: NaN equals nothing, otherwise structural (finite
values compared by normalized numerator and denominator). -/
def jsSEq : JS → JS → Bool
  | .nan, _ => false
  | _, .nan => false
  | .fin a, .fin b => a.num == b.num && a.den == b.den
  | .inf, .inf => true
  | .ninf, .ninf => true
  | _, _ => false

/-- Math.max: NaN-propagating maximum. -/
def jsMax : JS → JS → JS
  | .nan, _ => .nan
  | _, .nan => .nan
  | .inf, _ => .inf
  | _, .inf => .inf
  | .ninf, b => b
  | a, .ninf => a
  | .fin a, .fin b => .fin (max a b)

/-- Math.min: NaN-propagating minimum. -/
def jsMin : JS → JS → JS
  | .nan, _ => .nan
  | _, .nan => .nan
  | .ninf, _ => .ninf
  | _, .ninf => .ninf
  | .inf, b => b
  | a, .inf => a
  | .fin a, .fin b => .fin (min a b)

/-- Math.abs. -/
def jsAbs : JS → JS
  | .fin a => .fin |a|
  | .nan => .nan
  | .inf => .inf
  | .ninf => .inf

/-- Math.round: round half toward positive infinity on finite values. -/
def jsRound : JS → JS
  | .fin a => .fin (⌊a + 1/2⌋ : ℤ)
  | .nan => .nan
  | .inf => .inf
  | .ninf => .ninf

/-- isFinite: true exactly on finite values. -/
def isFin : JS → Bool
  | .fin _ => true
  | _ => false

/-- JS `x % 1 !== 0`: true when a finite value is not an integer, and for NaN and both
infinities (whose remainder is NaN, which is !== 0). -/
def fracNonzero : JS → Bool
  | .fin q => q.den != 1
  | _ => true

/-!  Abstract transcendental functions.

Math.exp, Math.pow, Math.log compute irrational values, so a shallow rational
embedding cannot fix them pointwise.  They are abstracted as a structure; the
bundled properties are facts of the IEEE-754 double implementations that the
verified code relies on:
  - Math.exp of a finite argument is a positive finite double or +Infinity,
    and it does not overflow for arguments up to 709 (overflow starts at ~709.78);
  - Math.exp maps NaN to NaN, +Infinity to +Infinity, -Infinity to +0;
  - Math.pow of a NaN base with a nonzero exponent is NaN.
Every theorem below holds for every MathFns instance, i.e. for every
implementation of exp/pow/log satisfying these facts. -/
structure MathFns where
  exp : JS → JS
  pow : JS → JS → JS
  log : JS → JS
  exp_fin : ∀ q : ℚ, (∃ p : ℚ, 0 < p ∧ exp (.fin q) = .fin p) ∨ exp (.fin q) = .inf
  exp_fin_small : ∀ q : ℚ, q ≤ 709 → ∃ p : ℚ, 0 < p ∧ exp (.fin q) = .fin p
  exp_nan : exp .nan = .nan
  exp_inf : exp .inf = .inf
  exp_ninf : exp .ninf = .fin 0
  pow_nan : ∀ y : JS, y ≠ .fin 0 → pow .nan y = .nan

/-- Error type for the MathematicalError throws of the math layer, one
constructor per throw site reachable in the model. -/
inductive MErr where
  | gammaZero
  | kappaNonFinite
  | tNonPositive
  | insufficientWealth
  | term2NonPositive
  | complexPower
  | nonFiniteResult
deriving DecidableEq, Repr

/-- kappa(r, rho, gamma) = (r*(gamma-1) + rho)/gamma from part_000:250-265.
Throws when gamma === 0 or when the result is not finite. -/
def kappa (r rho gamma : JS) : Except MErr JS :=
  if jsSEq gamma (J 0) then .error .gammaZero
  else
    let result := (r * (gamma - J 1) + rho) / gamma
    if isFin result then .ok result else .error .kappaNonFinite

/-- Period utility U2 from part_000:279-343.  The outer try/catch there only
rethrows MathematicalError (the sole error source in the model), so it is the
identity and is omitted. -/
def U2 (M : MathFns) (r rho gamma T A B : JS) : Except MErr JS :=
  if jsLe T (J 0) then .error .tNonPositive
  else
    let expRT := M.exp (r * T)
    let term1 := expRT * A - B
    if jsLe term1 (J 0) then .error .insufficientWealth
    else
      match kappa r rho gamma with
      | .error e => .error e
      | .ok kappaVal =>
        let expNegKappaT := M.exp (jsNeg kappaVal * T)
        let expRminusRhoToverGamma := M.exp ((r - rho) * T / gamma)
        let term2 := expRT - expRminusRhoToverGamma
        if jsLe term2 (J 0) then .error .term2NonPositive
        else if !(jsSEq gamma (J 1)) && jsLt term1 (J 0) && fracNonzero (J 1 - gamma) then
          .error .complexPower
        else if !(jsSEq gamma (J 1)) && jsLt term2 (J 0) && fracNonzero (J 1 - gamma) then
          .error .complexPower
        else
          let result :=
            if jsSEq gamma (J 1) then
              M.log term1 * (J 1 - expNegKappaT) / kappaVal - M.log term2
            else
              let gammaTerm := J 1 - gamma
              let num := M.pow term1 gammaTerm * (J 1 - expNegKappaT) * M.pow kappaVal (jsNeg gamma)
              let den := gammaTerm * M.pow term2 gammaTerm
              num / den
          if isFin result then .ok result else .error .nonFiniteResult

/-- Bequest utility as computed inside lifetimeUtility (part_000:376-391), for
the case w2 > 0 has already been checked.  eta === 1 gives log utility,
otherwise power utility; the inner `w2 <= 0 && ...` early return of the power
branch is handled by the caller below (it is dead there since w2 > 0). -/
def bequestUtility (M : MathFns) (beta eta w2 : JS) : JS :=
  if jsSEq eta (J 1) then
    beta * M.log (jsMax w2 (J (1/10000000000)))
  else
    beta * M.pow (jsMax w2 (J (1/10000000000))) (J 1 - eta) / (J 1 - eta)

/-- lifetimeUtility from part_000:361-411.  Total: the try/catch absorbs every
thrown MathematicalError into the finite sentinel -5000, and every early
return is the same sentinel. -/
def lifetimeUtility (M : MathFns) (r rho gamma t1 t2 beta eta tau w0 w1 w2 : JS) : JS :=
  match U2 M r rho gamma t1 w0 w1 with
  | .error _ => J (-5000)
  | .ok u1 =>
    if !(isFin u1) || jsSEq u1 .ninf then J (-5000)
    else
      match U2 M r rho gamma t2 (w1 * (J 1 - tau)) w2 with
      | .error _ => J (-5000)
      | .ok u2 =>
        if !(isFin u2) || jsSEq u2 .ninf then J (-5000)
        else if jsLe w2 (J 0) then J (-5000)
        else if !(jsSEq eta (J 1)) && (jsLe w2 (J 0) && fracNonzero (J 1 - eta)) then J (-5000)
        else
          let beq := bequestUtility M beta eta w2
          if !(isFin beq) then J (-5000)
          else
            let totalUtility := u1 + M.exp (jsNeg rho * t1) * u2 + beq
            if !(isFin totalUtility) then J (-5000)
            else totalUtility

/-- Economic parameter record.  All nine fields are JS numbers; the
JavaScript objects carry exactly these numeric fields (w0 defaulting to 1 is
done by the callers' destructuring and is immaterial here since every caller
in the model passes a full record). -/
structure Params where
  r : JS
  rho : JS
  gamma : JS
  eta : JS
  beta : JS
  tau : JS
  t1 : JS
  t2 : JS
  w0 : JS
deriving DecidableEq, Repr

/-- checkConstraints from part_000:621-642: pure boolean feasibility test. -/
def checkConstraints (M : MathFns) (w1 w2 : JS) (p : Params) : Bool :=
  if jsLe w1 (J 0) || jsLe w2 (J 0) then false
  else
    let maxW1 := M.exp (p.r * p.t1) * p.w0
    if jsGe w1 maxW1 then false
    else
      let maxW2 := w1 * (J 1 - p.tau) * M.exp (p.r * p.t2)
      if jsGe w2 maxW2 then false
      else true

/-!  Parameter validation (src/src/utils/ParameterValidator.js).

validateParameters returns isValid, i.e. that every rule produced no error.
The typeof-number rules are identically true here (Params fields are JS
numbers).  A range rule errors when `value < min || value > max` (false for
NaN, which the finite rule catches instead). -/

/-- Range rule: no error iff not (value < lo or hi < value). -/
def inRange (v : JS) (lo hi : ℚ) : Bool := !(jsLt v (J lo) || jsLt (J hi) v)

/-- Number.isInteger. -/
def isIntegerJS : JS → Bool
  | .fin q => q.den == 1
  | _ => false

/-- ParameterValidator.validate(...).isValid: conjunction of all per-field and
cross-field rules of ParameterValidator.js. -/
def validateParameters (p : Params) : Bool :=
  inRange p.r (1/1000) (1/5) && isFin p.r &&
  inRange p.rho (1/1000) (3/20) && isFin p.rho &&
  inRange p.gamma (1/10) 5 && isFin p.gamma && !(jsSEq p.gamma (J 1)) &&
  inRange p.eta (1/10) 5 && isFin p.eta && !(jsSEq p.eta (J 1)) &&
  inRange p.beta 0 50 && isFin p.beta &&
  inRange p.tau 0 (99/100) && isFin p.tau &&
  inRange p.t1 1 100 && isIntegerJS p.t1 && isFin p.t1 &&
  inRange p.t2 1 100 && isIntegerJS p.t2 && isFin p.t2 &&
  inRange p.w0 (1/100) 1000 && isFin p.w0 &&
  !(jsLe p.r p.rho) &&
  !(jsLt (J 120) (p.t1 + p.t2)) &&
  !(jsLt p.t1 (J 5)) &&
  !(jsLt (J 3) (jsAbs (p.gamma - p.eta)))

/-!  OptimizationService (src/src/services/OptimizationService.js).

The service is modelled with its mutable fields (cache, cacheOrder,
lastOptimalResult, lastParameters) as an explicit state record; options are a
constructor argument.  useWebWorkers is permanently false (and the mocked
worker manager would fall back to the main thread anyway), so the main-thread
path is the only one modelled.  performance.now()-based bookkeeping fields
(calculationTime, usedWorker, performanceStats) affect no claim and are
omitted from the result record.

numeric.uncmin is a third-party library, not part of this repository.
Modelled from the spec: Refine is a local unconstrained minimization of the
objective; a Minimizer is an arbitrary function receiving the objective, the
seed, the tolerance and the iteration cap and possibly returning a solution
with its reported objective value f and iteration count (none models a throw
or a null return).  minimizerHonest states that the reported f is the
objective evaluated at the reported solution; minimizerDescent states that
the reported f does not exceed the objective at the seed (numeric.uncmin only
moves along decreasing line searches). -/

/-- Solver options (OptimizationService constructor defaults). -/
structure Options where
  maxIterations : ℕ
  tolerance : ℚ
  gridSteps : ℕ
  warmStartEnabled : Bool
  cacheSize : ℕ
  cacheTTL : ℕ
deriving DecidableEq, Repr

/-- The constructor defaults of OptimizationService. -/
def defaultOptions : Options :=
  { maxIterations := 1000, tolerance := 1/1000000000000, gridSteps := 100,
    warmStartEnabled := true, cacheSize := 100, cacheTTL := 60000 }

/-- isParameterSimilar's per-field test: not (|a-b| / max(a,b) > 0.1). -/
def similarOne (a b : JS) : Bool := !(jsLt (J (1/10)) (jsDiv (jsAbs (a - b)) (jsMax a b)))

/-- OptimizationService.isParameterSimilar over r, rho, gamma, eta, beta, tau;
false when there are no previous parameters. -/
def isParameterSimilar (p1 : Params) : Option Params → Bool
  | none => false
  | some p2 =>
    similarOne p1.r p2.r && similarOne p1.rho p2.rho && similarOne p1.gamma p2.gamma &&
    similarOne p1.eta p2.eta && similarOne p1.beta p2.beta && similarOne p1.tau p2.tau

/-- The search box computed by determineSearchSpace. -/
structure SearchSpace where
  w1Min : JS
  w1Max : JS
  w2Min : JS
  w2Max : JS
  centerW1 : JS
  centerW2 : JS
deriving DecidableEq, Repr

/-- OptimizationService.determineSearchSpace (lines 183-219). -/
def determineSearchSpace (M : MathFns) (opts : Options)
    (lastOptimalResult : Option (JS × JS)) (lastParameters : Option Params)
    (p : Params) : SearchSpace :=
  let maxW1 := M.exp (p.r * p.t1) * p.w0
  let cold : JS × JS × ℚ := (maxW1 * J (3/5), maxW1 * J (1/2), (2:ℚ)/5)
  let cwr : JS × JS × ℚ :=
    match lastOptimalResult with
    | some c =>
      if opts.warmStartEnabled && isParameterSimilar p lastParameters then
        if checkConstraints M c.1 c.2 p then (c.1, c.2, (1:ℚ)/5) else cold
      else cold
    | none => cold
  let centerW1 := cwr.1
  let centerW2 := cwr.2.1
  let radius := cwr.2.2
  { w1Min := jsMax (J (1/100)) (centerW1 * J (1 - radius))
  , w1Max := jsMin (maxW1 - J (1/100)) (centerW1 * J (1 + radius))
  , w2Min := jsMax (J (1/100)) (centerW2 * J (1 - radius))
  , w2Max := jsMin (centerW2 * J (1 + radius * 2)) (maxW1 * J 3)
  , centerW1 := centerW1
  , centerW2 := centerW2 }

/-- Result of gridSearch (lines 224-272). -/
structure GridOut where
  success : Bool
  w1 : JS
  w2 : JS
  utility : JS
  evaluations : ℕ
deriving DecidableEq, Repr

/-- Accumulator of the grid-search double loop. -/
structure GridAcc where
  bestW1 : JS
  bestW2 : JS
  bestUtility : JS
  evaluations : ℕ
deriving DecidableEq, Repr

/-- A sample coordinate lo + (hi - lo) * i / gridSteps. -/
def gridPoint (lo hi : JS) (steps i : ℕ) : JS :=
  lo + (hi - lo) * J (i : ℚ) / J (steps : ℚ)

/-- One iteration of the inner grid-search loop body. -/
def gridBody (M : MathFns) (opts : Options) (p : Params) (space : SearchSpace)
    (acc : GridAcc) (ij : ℕ × ℕ) : GridAcc :=
  let w1 := gridPoint space.w1Min space.w1Max opts.gridSteps ij.1
  let w2 := gridPoint space.w2Min space.w2Max opts.gridSteps ij.2
  let acc1 := { acc with evaluations := acc.evaluations + 1 }
  if !(checkConstraints M w1 w2 p) then acc1
  else
    let utility := lifetimeUtility M p.r p.rho p.gamma p.t1 p.t2 p.beta p.eta p.tau p.w0 w1 w2
    if isFin utility && jsLt acc1.bestUtility utility then
      { acc1 with bestW1 := w1, bestW2 := w2, bestUtility := utility }
    else acc1

/-- The (i, j) iteration order of the two nested loops, i outer, j inner,
each ranging over 0..gridSteps. -/
def gridIndices (steps : ℕ) : List (ℕ × ℕ) :=
  (List.range (steps+1)).flatMap (fun i => (List.range (steps+1)).map (fun j => (i, j)))

/-- OptimizationService.gridSearch (lines 224-272).  The try/catch around
lifetimeUtility is dead (lifetimeUtility is total). -/
def gridSearch (M : MathFns) (opts : Options) (p : Params) (space : SearchSpace) : GridOut :=
  let acc := (gridIndices opts.gridSteps).foldl (gridBody M opts p space)
    ⟨space.centerW1, space.centerW2, .ninf, 0⟩
  { success := jsLt .ninf acc.bestUtility
  , w1 := acc.bestW1, w2 := acc.bestW2, utility := acc.bestUtility
  , evaluations := acc.evaluations }

/-- What the abstract minimizer reports on success. -/
structure MinResult where
  solution : JS × JS
  f : JS
  iterations : ℕ

/-- An abstract local minimizer standing for numeric.uncmin:
objective, seed, tolerance, iteration cap. -/
def Minimizer : Type := ((JS × JS) → JS) → (JS × JS) → ℚ → ℕ → Option MinResult

/-- The reported objective value is the objective at the reported solution. -/
def minimizerHonest (mini : Minimizer) : Prop :=
  ∀ obj x0 tol maxIt res, mini obj x0 tol maxIt = some res → res.f = obj res.solution

/-- The reported objective value does not exceed the objective at the seed. -/
def minimizerDescent (mini : Minimizer) : Prop :=
  ∀ obj x0 tol maxIt res, mini obj x0 tol maxIt = some res → jsLe res.f (obj x0) = true

/-- Convergence tag of a solver result. -/
inductive Convergence where
  | converged
  | grid_only
deriving DecidableEq, Repr

/-- Method tag of a solver result. -/
inductive SolveMethod where
  | grid_search
  | numerical_refinement
deriving DecidableEq, Repr

/-- The OptimizationResult fields every claim talks about (iterations is the
minimizer's count, a natural number). -/
structure OptResult where
  w1 : JS
  w2 : JS
  utility : JS
  iterations : ℕ
  convergence : Convergence
  method : SolveMethod
deriving DecidableEq, Repr

/-- The penalized objective built inside numericalRefinement (lines 281-299). -/
def objectiveFunction (M : MathFns) (p : Params) (vars : JS × JS) : JS :=
  if !(checkConstraints M vars.1 vars.2 p) then J 10000000000
  else
    let utility := lifetimeUtility M p.r p.rho p.gamma p.t1 p.t2 p.beta p.eta p.tau p.w0 vars.1 vars.2
    if !(isFin utility) || jsSEq utility (J (-5000)) then J 10000000000
    else jsNeg utility

/-- OptimizationService.numericalRefinement (lines 277-334) combined with the
field defaulting performMainThreadOptimization applies to its outcome
(iterations || 0, convergence || grid_only, method of the grid result being
grid_search). -/
def numericalRefinement (M : MathFns) (mini : Minimizer) (opts : Options)
    (p : Params) (g : GridOut) : OptResult :=
  let fallback : OptResult :=
    { w1 := g.w1, w2 := g.w2, utility := g.utility, iterations := 0,
      convergence := .grid_only, method := .grid_search }
  match mini (objectiveFunction M p) (g.w1, g.w2) opts.tolerance opts.maxIterations with
  | none => fallback
  | some res =>
    if isFin res.f && jsLt res.f (J 1000000000) then
      if checkConstraints M res.solution.1 res.solution.2 p then
        { w1 := res.solution.1, w2 := res.solution.2, utility := jsNeg res.f,
          iterations := res.iterations, convergence := .converged,
          method := .numerical_refinement }
      else fallback
    else fallback

/-- Error outcomes of a findOptimalWealth call. -/
inductive OptErr where
  | validationFailed
  | gridFailed
deriving DecidableEq, Repr

/-- OptimizationService.performMainThreadOptimization (lines 147-178): grid
search, then refinement; grid failure is a hard error. -/
def performMainThreadOptimization (M : MathFns) (mini : Minimizer) (opts : Options)
    (lastOptimalResult : Option (JS × JS)) (lastParameters : Option Params)
    (p : Params) : Except OptErr OptResult :=
  let space := determineSearchSpace M opts lastOptimalResult lastParameters p
  let g := gridSearch M opts p space
  if g.success then .ok (numericalRefinement M mini opts p g) else .error .gridFailed

/-- A cache entry: stored result copy and insertion timestamp. -/
structure CacheEntry where
  result : OptResult
  timestamp : ℕ
deriving DecidableEq, Repr

/-- One numeric field of generateCacheKey: Math.round(value*1000)/1000. -/
def roundParam (v : JS) : JS := jsDiv (jsRound (v * J 1000)) (J 1000)

/-- generateCacheKey (lines 339-350).  The JSON string of the rounded record
is in bijection with the rounded record for validated (finite) parameters, so
the key is modelled as the rounded record itself. -/
def generateCacheKey (p : Params) : Params :=
  { r := roundParam p.r, rho := roundParam p.rho, gamma := roundParam p.gamma,
    eta := roundParam p.eta, beta := roundParam p.beta, tau := roundParam p.tau,
    t1 := roundParam p.t1, t2 := roundParam p.t2, w0 := roundParam p.w0 }

/-- The mutable fields of the service. -/
structure ServiceState where
  cache : List (Params × CacheEntry)
  cacheOrder : List Params
  lastOptimalResult : Option (JS × JS)
  lastParameters : Option Params
deriving DecidableEq, Repr

/-- Fresh service: empty cache, empty LRU order, no warm start. -/
def initialState : ServiceState :=
  { cache := [], cacheOrder := [], lastOptimalResult := none, lastParameters := none }

/-- Map.get on the association-list model of this.cache. -/
def alistGet : List (Params × CacheEntry) → Params → Option CacheEntry
  | [], _ => none
  | e :: rest, k => if e.1 = k then some e.2 else alistGet rest k

/-- Map.has. -/
def alistContains : List (Params × CacheEntry) → Params → Bool
  | [], _ => false
  | e :: rest, k => if e.1 = k then true else alistContains rest k

/-- Map.set: replace in place when present, otherwise add. -/
def alistInsert (m : List (Params × CacheEntry)) (k : Params) (v : CacheEntry) :
    List (Params × CacheEntry) :=
  if alistContains m k then m.map (fun e => if e.1 = k then (k, v) else e)
  else (k, v) :: m

/-- Map.delete.  Map keys are unique, so removing every matching entry agrees
with deleting the single one. -/
def alistErase (m : List (Params × CacheEntry)) (k : Params) : List (Params × CacheEntry) :=
  m.filter (fun e => !(decide (e.1 = k)))

/-- getFromCache (lines 352-370): TTL-expired entries are deleted from the map
(but not from the LRU order list) and reported as a miss; a hit moves the key
to the front of the LRU order (splice of the first occurrence, then unshift). -/
def getFromCache (opts : Options) (st : ServiceState) (key : Params) (now : ℕ) :
    Option OptResult × ServiceState :=
  match alistGet st.cache key with
  | none => (none, st)
  | some entry =>
    if opts.cacheTTL < now - entry.timestamp then
      (none, { st with cache := alistErase st.cache key })
    else
      (some entry.result, { st with cacheOrder := key :: st.cacheOrder.erase key })

/-- The while-loop of addToCache, acting on the REVERSED order list (popping
the last element is consuming the head of the reversal): while the list still
has at least cacheSize entries, pop one key and delete it from the map.  For
cacheSize = 0 and an empty list the JavaScript loop never terminates; the
model returns, which is only reached in that divergent configuration. -/
def evictRev (size : ℕ) : List Params → List (Params × CacheEntry) →
    List Params × List (Params × CacheEntry)
  | [], m => ([], m)
  | k :: rest, m =>
    if rest.length + 1 < size then (k :: rest, m)
    else evictRev size rest (alistErase m k)

/-- addToCache (lines 372-386): evict least-recently-used entries while at
capacity, then insert with the current timestamp and unshift the key. -/
def addToCache (opts : Options) (st : ServiceState) (key : Params) (res : OptResult)
    (now : ℕ) : ServiceState :=
  let em := evictRev opts.cacheSize st.cacheOrder.reverse st.cache
  { st with cache := alistInsert em.2 key ⟨res, now⟩
          , cacheOrder := key :: em.1.reverse }

/-- updateWarmStart (lines 391-394). -/
def updateWarmStart (st : ServiceState) (p : Params) (res : OptResult) : ServiceState :=
  { st with lastOptimalResult := some (res.w1, res.w2), lastParameters := some p }

/-- clearCache (lines 417-420). -/
def clearCache (st : ServiceState) : ServiceState :=
  { st with cache := [], cacheOrder := [] }

/-- findOptimalWealth (lines 58-87): validate, try the cache, otherwise run the
optimization, cache the result and update the warm start.  The returned Bool
is the cacheHit field; the state after the call is returned alongside (also on
errors, which leave the state as mutated so far). -/
def findOptimalWealth (M : MathFns) (mini : Minimizer) (opts : Options)
    (st : ServiceState) (p : Params) (now : ℕ) :
    Except OptErr (OptResult × Bool) × ServiceState :=
  if !(validateParameters p) then (.error .validationFailed, st)
  else
    let key := generateCacheKey p
    match getFromCache opts st key now with
    | (some cached, st1) => (.ok (cached, true), st1)
    | (none, st1) =>
      match performMainThreadOptimization M mini opts st1.lastOptimalResult st1.lastParameters p with
      | .error e => (.error e, st1)
      | .ok result =>
        let st2 := addToCache opts st1 key result now
        let st3 := updateWarmStart st2 p result
        (.ok (result, false), st3)

/-- One external operation on the service singleton. -/
inductive ServiceOp where
  | find (p : Params) (now : ℕ)
  | clear

/-- State effect of one operation. -/
def stepOp (M : MathFns) (mini : Minimizer) (opts : Options) (st : ServiceState) :
    ServiceOp → ServiceState
  | .find p now => (findOptimalWealth M mini opts st p now).2
  | .clear => clearCache st

/-- State after a sequence of operations from a fresh service. -/
def runOps (M : MathFns) (mini : Minimizer) (opts : Options) (ops : List ServiceOp) :
    ServiceState :=
  ops.foldl (stepOp M mini opts) initialState

/-!  Concrete instances used to instantiate witnesses and counterexamples. -/

/-- A concrete MathFns instance (all laws hold by construction). -/
def M0 : MathFns where
  exp := fun x =>
    match x with
    | .fin q => if q = 6/5 ∨ q = 3/2 then .fin 2 else .fin 1
    | .nan => .nan
    | .inf => .inf
    | .ninf => .fin 0
  pow := fun x _ =>
    match x with
    | .fin a =>
      if a = 1 ∨ a = 3/2 ∨ a = 11/350 then .fin 1
      else if a = 1/2 then .fin 20000 else .nan
    | _ => .nan
  log := fun _ => .nan
  exp_fin := by
    intro q
    left
    by_cases h : q = 6/5 ∨ q = 3/2
    · exact ⟨2, by norm_num, by simp [h]⟩
    · exact ⟨1, by norm_num, by simp [h]⟩
  exp_fin_small := by
    intro q _
    by_cases h : q = 6/5 ∨ q = 3/2
    · exact ⟨2, by norm_num, by simp [h]⟩
    · exact ⟨1, by norm_num, by simp [h]⟩
  exp_nan := rfl
  exp_inf := rfl
  exp_ninf := rfl
  pow_nan := by intro y _; rfl

/-- A minimizer that stays at the seed and reports the objective there:
honest and descending. -/
def mini0 : Minimizer := fun obj x0 _ _ => some ⟨x0, obj x0, 0⟩

/-- A minimizer that always reports the point (1, 1/2) with the objective
evaluated there: honest, and descending whenever the seed objective is at
least the objective at (1, 1/2). -/
def mini1 : Minimizer := fun obj _ _ _ => some ⟨(J 1, J (1/2)), obj (J 1, J (1/2)), 1⟩

/-- A concrete validated parameter set (the slider defaults except eta and
beta, kept validated). -/
def p0 : Params :=
  { r := J (3/50), rho := J (1/25), gamma := J (7/10), eta := J (3/2),
    beta := J 1, tau := J 0, t1 := J 20, t2 := J 25, w0 := J 1 }

/-- Default options with a 1-step grid (cheap witnesses). -/
def optsW : Options := { defaultOptions with gridSteps := 1 }

/-- Default options with a 4-step grid. -/
def optsC : Options := { defaultOptions with gridSteps := 4 }

/-- The closed-form value U2 computes on its success path (defined whenever
kappa is defined); used to state the positive direction of the feasibility
claim about U2. -/
def U2closed (M : MathFns) (r rho gamma T A B : JS) : Option JS :=
  match kappa r rho gamma with
  | .error _ => none
  | .ok kappaVal =>
    let expRT := M.exp (r * T)
    let term1 := expRT * A - B
    let expNegKappaT := M.exp (jsNeg kappaVal * T)
    let term2 := expRT - M.exp ((r - rho) * T / gamma)
    some (if jsSEq gamma (J 1) then
        M.log term1 * (J 1 - expNegKappaT) / kappaVal - M.log term2
      else
        let gammaTerm := J 1 - gamma
        M.pow term1 gammaTerm * (J 1 - expNegKappaT) * M.pow kappaVal (jsNeg gamma) /
          (gammaTerm * M.pow term2 gammaTerm))

/-- All numeric fields of a result are finite (no NaN, no infinity;
iterations is a natural number by construction). -/
def finResultB (res : OptResult) : Bool :=
  isFin res.w1 && isFin res.w2 && isFin res.utility

/-- Service-state sanity: every cached result and the warm-start hint carry
only finite numbers.  Holds for the fresh service and is preserved by every
call. -/
def GoodState (st : ServiceState) : Prop :=
  (∀ e ∈ st.cache, finResultB e.2.result = true) ∧
  (∀ a b, st.lastOptimalResult = some (a, b) → isFin a = true ∧ isFin b = true)

/-- Cache bookkeeping invariant: distinct map keys, every map key present in
the LRU order list, and the order list within capacity. -/
def cacheInv (size : ℕ) (st : ServiceState) : Prop :=
  (st.cache.map (fun e => e.1)).Nodup ∧
  (∀ k ∈ st.cache.map (fun e => e.1), k ∈ st.cacheOrder) ∧
  st.cacheOrder.length ≤ size


/-- The cold-start search box for p0 under M0 (1/5-step options). -/
def sp0W : SearchSpace := ⟨J (18/25), J (42/25), J (3/5), J (9/5), J (6/5), J 1⟩

/-- The grid-search outcome for p0 under M0 with a 1-step grid. -/
def g0W : GridOut := ⟨true, J (18/25), J (3/5), J (-5000), 4⟩

/-- The solver result for p0 under M0, mini0 and the 1-step grid. -/
def r0W : OptResult := ⟨J (18/25), J (3/5), J (-5000), 0, .grid_only, .grid_search⟩

/-- The service state after one fresh-state call on p0 at time 0. -/
def st1W : ServiceState :=
  { cache := [(p0, ⟨r0W, 0⟩)], cacheOrder := [p0],
    lastOptimalResult := some (J (18/25), J (3/5)), lastParameters := some p0 }


/-- Invariant of the grid-search accumulator: either nothing has been
recorded yet, or the recorded best is a feasible point whose recorded utility
is finite and is exactly its lifetimeUtility. -/
def gridInvariant (M : MathFns) (p : Params) (acc : GridAcc) : Prop :=
  acc.bestUtility = .ninf ∨
    (isFin acc.bestUtility = true ∧
     checkConstraints M acc.bestW1 acc.bestW2 p = true ∧
     lifetimeUtility M p.r p.rho p.gamma p.t1 p.t2 p.beta p.eta p.tau p.w0 acc.bestW1 acc.bestW2
       = acc.bestUtility)

/-- Strengthened accumulator invariant: additionally the recorded coordinates
are finite (holds when the search box is finite). -/
def gridInvariantF (M : MathFns) (p : Params) (acc : GridAcc) : Prop :=
  acc.bestUtility = .ninf ∨
    (isFin acc.bestW1 = true ∧ isFin acc.bestW2 = true ∧ isFin acc.bestUtility = true ∧
     checkConstraints M acc.bestW1 acc.bestW2 p = true ∧
     lifetimeUtility M p.r p.rho p.gamma p.t1 p.t2 p.beta p.eta p.tau p.w0 acc.bestW1 acc.bestW2
       = acc.bestUtility)

/-- A finite search box. -/
def boxFin (space : SearchSpace) : Prop :=
  isFin space.w1Min = true ∧ isFin space.w1Max = true ∧
  isFin space.w2Min = true ∧ isFin space.w2Max = true

/-!  Theorems.  First a toolkit about the JS arithmetic, then the claims. -/

theorem isFin_iff (x : JS) : isFin x = true ↔ ∃ q, x = .fin q := by
  cases x <;> simp [isFin]

theorem jsAdd_nan_right (x : JS) : jsAdd x .nan = .nan := by cases x <;> rfl

theorem jsMul_nan_left (x : JS) : jsMul .nan x = .nan := by cases x <;> rfl

theorem jsMul_nan_right (x : JS) : jsMul x .nan = .nan := by cases x <;> rfl

theorem jsSub_nan_right (x : JS) : jsSub x .nan = .nan := by cases x <;> rfl

theorem jsDiv_nan_left (x : JS) : jsDiv .nan x = .nan := by cases x <;> rfl

theorem jsLe_nan_left (x : JS) : jsLe .nan x = false := by cases x <;> rfl

theorem jsLt_nan_left (x : JS) : jsLt .nan x = false := by cases x <;> rfl

theorem jsLt_inf_left (x : JS) : jsLt .inf x = false := by cases x <;> rfl

theorem jsLt_irrefl_flip (a b : JS) : jsLt a b = true → jsLe b a = false := by
  cases a <;> cases b <;> simp [jsLt, jsLe]

theorem jsLt_of_not_le (a b : JS) (qa : ℚ) (ha : a = .fin qa) (h : jsLe a b = false) :
    jsLt a b = false := by
  subst ha
  cases b <;> simp_all [jsLt, jsLe]
  exact le_of_lt h

theorem jsSEq_ninf_of_fin (q : ℚ) : jsSEq (.fin q) .ninf = false := rfl

/-- A value that passed the isFinite check is not === -Infinity. -/
theorem jsSEq_ninf_of_isFin (v : JS) (h : isFin v = true) : jsSEq v .ninf = false := by
  rw [isFin_iff] at h
  obtain ⟨q, rfl⟩ := h
  rfl

/-- U2 only succeeds with a finite value (its final isFinite check), which is
in particular not === -Infinity. -/
theorem U2_ok_isFin (M : MathFns) (r rho gamma T A B v : JS)
    (h : U2 M r rho gamma T A B = .ok v) :
    isFin v = true ∧ jsSEq v .ninf = false := by
  unfold U2 at h
  dsimp only at h
  repeat' split at h
  all_goals cases h
  all_goals
    rename_i hfin
    exact ⟨hfin, jsSEq_ninf_of_isFin _ hfin⟩

theorem kappa_gamma_zero (r rho : JS) : kappa r rho (J 0) = .error .gammaZero := rfl

/-- Whatever the other arguments are, U2 at gamma = 0 signals an error: either
one of its own guards fires first, or the kappa domain error propagates. -/
theorem U2_gamma_zero (M : MathFns) (r rho T A B : JS) :
    ∃ e, U2 M r rho (J 0) T A B = .error e := by
  unfold U2
  dsimp only
  split
  · exact ⟨_, rfl⟩
  · split
    · exact ⟨_, rfl⟩
    · rw [kappa_gamma_zero]
      exact ⟨_, rfl⟩

/-- lifetimeUtility always returns a finite value: every branch either is the
sentinel or has passed an isFinite check. -/
theorem lifetimeUtility_isFin (M : MathFns) (r rho gamma t1 t2 beta eta tau w0 w1 w2 : JS) :
    isFin (lifetimeUtility M r rho gamma t1 t2 beta eta tau w0 w1 w2) = true := by
  unfold lifetimeUtility
  dsimp only
  repeat' split
  all_goals first | rfl | simp_all

/-- Claim C10: with gamma = 0 (and arbitrary other arguments) lifetimeUtility
returns the sentinel -5000: the kappa domain error (or an earlier U2 guard)
is a thrown MathematicalError which the catch-all in lifetimeUtility absorbs,
so it never escapes to the caller. -/
theorem claim_C10 (M : MathFns) (r rho t1 t2 beta eta tau w0 w1 w2 : JS) :
    lifetimeUtility M r rho (J 0) t1 t2 beta eta tau w0 w1 w2 = J (-5000) := by
  obtain ⟨e, he⟩ := U2_gamma_zero M r rho t1 w0 w1
  unfold lifetimeUtility
  rw [he]

/-- Claim C2: lifetimeUtility is total on all JS inputs: it never throws (it
is a total function into JS by construction) and its value is always a finite
number; whenever the period-1 utility, the period-2 utility or the bequest
utility is infeasible or non-finite, or w2 is nonpositive, or the combined
total is non-finite, the value is exactly the finite sentinel -5000. -/
theorem claim_C2 (M : MathFns) (r rho gamma t1 t2 beta eta tau w0 w1 w2 : JS) :
    (∃ q : ℚ, lifetimeUtility M r rho gamma t1 t2 beta eta tau w0 w1 w2 = .fin q)
    ∧ (∀ e, U2 M r rho gamma t1 w0 w1 = .error e →
        lifetimeUtility M r rho gamma t1 t2 beta eta tau w0 w1 w2 = J (-5000))
    ∧ (∀ e, U2 M r rho gamma t2 (w1 * (J 1 - tau)) w2 = .error e →
        lifetimeUtility M r rho gamma t1 t2 beta eta tau w0 w1 w2 = J (-5000))
    ∧ (jsLe w2 (J 0) = true →
        lifetimeUtility M r rho gamma t1 t2 beta eta tau w0 w1 w2 = J (-5000))
    ∧ (isFin (bequestUtility M beta eta w2) = false →
        lifetimeUtility M r rho gamma t1 t2 beta eta tau w0 w1 w2 = J (-5000))
    ∧ (∀ u1 u2, U2 M r rho gamma t1 w0 w1 = .ok u1 →
        U2 M r rho gamma t2 (w1 * (J 1 - tau)) w2 = .ok u2 →
        isFin (u1 + M.exp (jsNeg rho * t1) * u2 + bequestUtility M beta eta w2) = false →
        lifetimeUtility M r rho gamma t1 t2 beta eta tau w0 w1 w2 = J (-5000)) := by
  refine ⟨?_, ?_, ?_, ?_, ?_, ?_⟩
  · rw [← isFin_iff]
    exact lifetimeUtility_isFin M r rho gamma t1 t2 beta eta tau w0 w1 w2
  · intro e he
    unfold lifetimeUtility
    rw [he]
  · intro e he
    rcases hu1 : U2 M r rho gamma t1 w0 w1 with e1 | u1v
    · unfold lifetimeUtility
      rw [hu1]
    · obtain ⟨hf1, hs1⟩ := U2_ok_isFin M r rho gamma t1 w0 w1 u1v hu1
      unfold lifetimeUtility
      rw [hu1]
      simp [hf1, hs1, he]
  · intro hw2
    rcases hu1 : U2 M r rho gamma t1 w0 w1 with e1 | u1v
    · unfold lifetimeUtility
      rw [hu1]
    · obtain ⟨hf1, hs1⟩ := U2_ok_isFin M r rho gamma t1 w0 w1 u1v hu1
      rcases hu2 : U2 M r rho gamma t2 (w1 * (J 1 - tau)) w2 with e2 | u2v
      · unfold lifetimeUtility
        rw [hu1]
        simp [hf1, hs1, hu2]
      · obtain ⟨hf2, hs2⟩ := U2_ok_isFin M r rho gamma t2 (w1 * (J 1 - tau)) w2 u2v hu2
        unfold lifetimeUtility
        rw [hu1]
        simp [hf1, hs1, hu2, hf2, hs2, hw2]
  · intro hbq
    rcases hu1 : U2 M r rho gamma t1 w0 w1 with e1 | u1v
    · unfold lifetimeUtility
      rw [hu1]
    · obtain ⟨hf1, hs1⟩ := U2_ok_isFin M r rho gamma t1 w0 w1 u1v hu1
      rcases hu2 : U2 M r rho gamma t2 (w1 * (J 1 - tau)) w2 with e2 | u2v
      · unfold lifetimeUtility
        rw [hu1]
        simp [hf1, hs1, hu2]
      · obtain ⟨hf2, hs2⟩ := U2_ok_isFin M r rho gamma t2 (w1 * (J 1 - tau)) w2 u2v hu2
        unfold lifetimeUtility
        rw [hu1]
        by_cases hw2 : jsLe w2 (J 0) = true
        · simp [hf1, hs1, hu2, hf2, hs2, hw2]
        · simp [hf1, hs1, hu2, hf2, hs2, hw2, hbq]
  · intro u1v u2v hu1 hu2 ht
    obtain ⟨hf1, hs1⟩ := U2_ok_isFin M r rho gamma t1 w0 w1 u1v hu1
    obtain ⟨hf2, hs2⟩ := U2_ok_isFin M r rho gamma t2 (w1 * (J 1 - tau)) w2 u2v hu2
    unfold lifetimeUtility
    rw [hu1]
    by_cases hw2 : jsLe w2 (J 0) = true
    · simp [hf1, hs1, hu2, hf2, hs2, hw2]
    · by_cases hbq : isFin (bequestUtility M beta eta w2) = true
      · simp [hf1, hs1, hu2, hf2, hs2, hw2, hbq, ht]
      · simp [hf1, hs1, hu2, hf2, hs2, hw2, hbq]

/-- Witness for claim C2 at a concrete input: w2 = 0 is nonpositive and
lifetimeUtility returns the sentinel. -/
theorem claim_C2_witness :
    jsLe (J 0) (J 0) = true ∧
    lifetimeUtility M0 (J (3/50)) (J (1/25)) (J (7/10)) (J 20) (J 25) (J 1) (J (3/2)) (J 0)
      (J 1) (J 1) (J 0) = J (-5000) :=
  ⟨rfl, (claim_C2 M0 (J (3/50)) (J (1/25)) (J (7/10)) (J 20) (J 25) (J 1) (J (3/2)) (J 0)
      (J 1) (J 1) (J 0)).2.2.2.1 rfl⟩

theorem jsLt_false_of_jsLe_false (a b : JS) (h : jsLe a b = false) : jsLt a b = false := by
  cases a <;> cases b <;> simp_all [jsLe, jsLt]
  exact h.le

/-- Claim C7: U2 signals an error whenever T <= 0, whenever
term1 = e^(rT)*A - B <= 0 and whenever term2 = e^(rT) - e^((r-rho)T/gamma) <= 0;
when none of these holds and the closed-form result exists (kappa is defined)
and is finite, U2 returns exactly that value. -/
theorem claim_C7 (M : MathFns) (r rho gamma T A B : JS) :
    (jsLe T (J 0) = true → ∃ e, U2 M r rho gamma T A B = .error e)
    ∧ (jsLe (M.exp (r * T) * A - B) (J 0) = true → ∃ e, U2 M r rho gamma T A B = .error e)
    ∧ (jsLe (M.exp (r * T) - M.exp ((r - rho) * T / gamma)) (J 0) = true →
        ∃ e, U2 M r rho gamma T A B = .error e)
    ∧ (∀ v, U2closed M r rho gamma T A B = some v →
        jsLe T (J 0) = false →
        jsLe (M.exp (r * T) * A - B) (J 0) = false →
        jsLe (M.exp (r * T) - M.exp ((r - rho) * T / gamma)) (J 0) = false →
        isFin v = true →
        U2 M r rho gamma T A B = .ok v) := by
  refine ⟨?_, ?_, ?_, ?_⟩
  · intro h
    exact ⟨.tNonPositive, by unfold U2; simp [h]⟩
  · intro h
    by_cases hT : jsLe T (J 0) = true
    · exact ⟨.tNonPositive, by unfold U2; simp [hT]⟩
    · exact ⟨.insufficientWealth, by unfold U2; simp [hT, h]⟩
  · intro h
    by_cases hT : jsLe T (J 0) = true
    · exact ⟨.tNonPositive, by unfold U2; simp [hT]⟩
    by_cases h1 : jsLe (M.exp (r * T) * A - B) (J 0) = true
    · exact ⟨.insufficientWealth, by unfold U2; simp [hT, h1]⟩
    rcases hk : kappa r rho gamma with e | kv
    · exact ⟨e, by unfold U2; simp [hT, h1, hk]⟩
    · exact ⟨.term2NonPositive, by unfold U2; simp [hT, h1, hk, h]⟩
  · intro v hv hT h1 h2 hfin
    rcases hk : kappa r rho gamma with e | kv
    · rw [U2closed, hk] at hv
      simp at hv
    · rw [U2closed, hk] at hv
      simp only [Option.some.injEq] at hv
      subst hv
      have hlt1 := jsLt_false_of_jsLe_false _ _ h1
      have hlt2 := jsLt_false_of_jsLe_false _ _ h2
      unfold U2
      simp [hT, h1, hk, h2, hlt1, hlt2, hfin]

/-- Witness for claim C7: T = -1 is nonpositive and U2 signals an error. -/
theorem claim_C7_witness :
    jsLe (J (-1)) (J 0) = true ∧
    ∃ e, U2 M0 (J 1) (J 1) (J 1) (J (-1)) (J 1) (J 1) = Except.error e :=
  ⟨by decide, (claim_C7 M0 (J 1) (J 1) (J 1) (J (-1)) (J 1) (J 1)).1 (by decide)⟩

/-- Claim C6: checkConstraints is false when w1 <= 0, w2 <= 0,
w1 >= w0*e^(r*t1) or w2 >= w1*(1-tau)*e^(r*t2), and true for any point
strictly inside all four boundaries; it is a total boolean predicate (hence
never throws) by construction. -/
theorem claim_C6 (M : MathFns) (w1 w2 : JS) (p : Params) :
    ((jsLe w1 (J 0) = true ∨ jsLe w2 (J 0) = true
        ∨ jsGe w1 (M.exp (p.r * p.t1) * p.w0) = true
        ∨ jsGe w2 (w1 * (J 1 - p.tau) * M.exp (p.r * p.t2)) = true) →
      checkConstraints M w1 w2 p = false)
    ∧ ((jsLt (J 0) w1 = true ∧ jsLt (J 0) w2 = true
        ∧ jsLt w1 (M.exp (p.r * p.t1) * p.w0) = true
        ∧ jsLt w2 (w1 * (J 1 - p.tau) * M.exp (p.r * p.t2)) = true) →
      checkConstraints M w1 w2 p = true) := by
  constructor
  · intro h
    unfold checkConstraints
    rcases h with h | h | h | h
    · simp [h]
    · simp [h]
    · by_cases h1 : jsLe w1 (J 0) = true
      · simp [h1]
      · by_cases h2 : jsLe w2 (J 0) = true
        · simp [h2]
        · simp [h1, h2, jsGe] at h ⊢
          simp [h]
    · by_cases h1 : jsLe w1 (J 0) = true
      · simp [h1]
      · by_cases h2 : jsLe w2 (J 0) = true
        · simp [h2]
        · by_cases h3 : jsGe w1 (M.exp (p.r * p.t1) * p.w0) = true
          · simp [h1, h2, h3]
          · simp [h1, h2, h3, h]
  · rintro ⟨h1, h2, h3, h4⟩
    have e1 := jsLt_irrefl_flip _ _ h1
    have e2 := jsLt_irrefl_flip _ _ h2
    have e3 := jsLt_irrefl_flip _ _ h3
    have e4 := jsLt_irrefl_flip _ _ h4
    unfold checkConstraints
    simp [jsGe, e1, e2, e3, e4]

/-- Witness for claim C6: the point (1, 1) is strictly inside the box for the
default parameters under the concrete math instance, and checkConstraints
accepts it. -/
theorem claim_C6_witness :
    (jsLt (J 0) (J 1) = true ∧ jsLt (J 0) (J 1) = true
      ∧ jsLt (J 1) (M0.exp (p0.r * p0.t1) * p0.w0) = true
      ∧ jsLt (J 1) (J 1 * (J 1 - p0.tau) * M0.exp (p0.r * p0.t2)) = true)
    ∧ checkConstraints M0 (J 1) (J 1) p0 = true :=
  ⟨by with_unfolding_all decide, (claim_C6 M0 (J 1) (J 1) p0).2 (by with_unfolding_all decide)⟩

theorem gridBody_evaluations (M : MathFns) (opts : Options) (p : Params)
    (space : SearchSpace) (acc : GridAcc) (ij : ℕ × ℕ) :
    (gridBody M opts p space acc ij).evaluations = acc.evaluations + 1 := by
  unfold gridBody
  dsimp only
  repeat' split
  all_goals rfl

theorem foldl_gridBody_evaluations (M : MathFns) (opts : Options) (p : Params)
    (space : SearchSpace) (l : List (ℕ × ℕ)) (acc : GridAcc) :
    (l.foldl (gridBody M opts p space) acc).evaluations = acc.evaluations + l.length := by
  induction l generalizing acc with
  | nil => simp
  | cons x xs ih =>
    rw [List.foldl_cons, ih, gridBody_evaluations]
    simp
    omega

theorem flatMap_pairs_length (m l : List ℕ) :
    (l.flatMap (fun i => m.map (fun j => (i, j)))).length = l.length * m.length := by
  induction l with
  | nil => simp
  | cons x xs ih => simp [List.flatMap_cons, ih, Nat.succ_mul, Nat.add_comm]

theorem gridIndices_length (steps : ℕ) :
    (gridIndices steps).length = (steps + 1) * (steps + 1) := by
  unfold gridIndices
  rw [flatMap_pairs_length]
  simp

/-- The grid always evaluates exactly (gridSteps+1)^2 samples: the evaluation
counter is incremented unconditionally for every (i, j). -/
theorem gridSearch_evaluations (M : MathFns) (opts : Options) (p : Params)
    (space : SearchSpace) :
    (gridSearch M opts p space).evaluations = (opts.gridSteps + 1) * (opts.gridSteps + 1) := by
  unfold gridSearch
  dsimp only
  rw [foldl_gridBody_evaluations, gridIndices_length]
  simp

/-- Claim C4 (amended): when the Optimizer warm-starts (warm starting enabled,
a previous solution exists, the parameters are similar within the 10%
threshold and the hinted point still satisfies checkConstraints), the search
box is centered on the hint with the smaller radius 0.2, but GridSearch
samples it with the SAME configured step count N = options.gridSteps
(default 100) as a cold start: the sample count (N+1)^2 is independent of
warm-starting. -/
theorem claim_C4 (M : MathFns) (opts : Options) (p prev : Params) (c1 c2 : JS)
    (hw : opts.warmStartEnabled = true)
    (hsim : isParameterSimilar p (some prev) = true)
    (hcc : checkConstraints M c1 c2 p = true) :
    (determineSearchSpace M opts (some (c1, c2)) (some prev) p =
      { w1Min := jsMax (J (1/100)) (c1 * J (4/5))
      , w1Max := jsMin (M.exp (p.r * p.t1) * p.w0 - J (1/100)) (c1 * J (6/5))
      , w2Min := jsMax (J (1/100)) (c2 * J (4/5))
      , w2Max := jsMin (c2 * J (7/5)) (M.exp (p.r * p.t1) * p.w0 * J 3)
      , centerW1 := c1, centerW2 := c2 })
    ∧ ∀ space : SearchSpace,
        (gridSearch M opts p space).evaluations =
          (opts.gridSteps + 1) * (opts.gridSteps + 1) := by
  constructor
  · unfold determineSearchSpace
    simp only [hw, hsim, hcc, Bool.and_self, if_true]
    norm_num
  · intro space
    exact gridSearch_evaluations M opts p space

/-- Witness for claim C4 (amended) at concrete inputs: identical previous
parameters are similar, the hint (1, 1/2) is feasible, and the warm-started
grid still evaluates (100+1)^2 samples under the default options. -/
theorem claim_C4_witness :
    defaultOptions.warmStartEnabled = true ∧
    isParameterSimilar p0 (some p0) = true ∧
    checkConstraints M0 (J 1) (J (1/2)) p0 = true ∧
    (gridSearch M0 defaultOptions p0
      (determineSearchSpace M0 defaultOptions (some (J 1, J (1/2))) (some p0) p0)).evaluations =
      (defaultOptions.gridSteps + 1) * (defaultOptions.gridSteps + 1) :=
  ⟨rfl, by with_unfolding_all decide, by with_unfolding_all decide,
    (claim_C4 M0 defaultOptions p0 p0 (J 1) (J (1/2)) rfl
      (by with_unfolding_all decide) (by with_unfolding_all decide)).2
      (determineSearchSpace M0 defaultOptions (some (J 1, J (1/2))) (some p0) p0)⟩

/-- Counterexample to claim C4 as stated: a genuine warm start (similar
parameters, feasible hint, and a search box different from the cold one), yet
GridSearch uses the very same default step count 100 - it evaluates
101*101 samples exactly as the cold start does, not fewer. -/
theorem claim_C4_counterexample :
    isParameterSimilar p0 (some p0) = true ∧
    checkConstraints M0 (J 1) (J (1/2)) p0 = true ∧
    determineSearchSpace M0 defaultOptions (some (J 1, J (1/2))) (some p0) p0 ≠
      determineSearchSpace M0 defaultOptions none none p0 ∧
    (gridSearch M0 defaultOptions p0
      (determineSearchSpace M0 defaultOptions (some (J 1, J (1/2))) (some p0) p0)).evaluations =
      (gridSearch M0 defaultOptions p0
        (determineSearchSpace M0 defaultOptions none none p0)).evaluations ∧
    (gridSearch M0 defaultOptions p0
      (determineSearchSpace M0 defaultOptions (some (J 1, J (1/2))) (some p0) p0)).evaluations =
      101 * 101 := by
  refine ⟨by with_unfolding_all decide, by with_unfolding_all decide,
    by with_unfolding_all decide, ?_, ?_⟩
  · rw [gridSearch_evaluations, gridSearch_evaluations]
  · rw [gridSearch_evaluations]
    rfl

theorem getFromCache_warm (opts : Options) (st : ServiceState) (key : Params) (now : ℕ) :
    (getFromCache opts st key now).2.lastOptimalResult = st.lastOptimalResult ∧
    (getFromCache opts st key now).2.lastParameters = st.lastParameters := by
  unfold getFromCache
  repeat' split
  all_goals exact ⟨rfl, rfl⟩

/-- Claim C8: a findOptimalWealth call answered from the cache (cacheHit true)
leaves the warm-start slot unchanged; every successful non-cached call
overwrites it with the computed point and a copy of the parameters. -/
theorem claim_C8 (M : MathFns) (mini : Minimizer) (opts : Options) (st : ServiceState)
    (p : Params) (now : ℕ) :
    (∀ res st2, findOptimalWealth M mini opts st p now = (.ok (res, true), st2) →
      st2.lastOptimalResult = st.lastOptimalResult ∧ st2.lastParameters = st.lastParameters)
    ∧ (∀ res st2, findOptimalWealth M mini opts st p now = (.ok (res, false), st2) →
      st2.lastOptimalResult = some (res.w1, res.w2) ∧ st2.lastParameters = some p) := by
  constructor
  · intro res st2 h
    unfold findOptimalWealth at h
    split at h
    · exact absurd h (by simp)
    · dsimp only at h
      split at h
      · rename_i cached st1 heq
        simp only [Prod.mk.injEq, Except.ok.injEq] at h
        obtain ⟨⟨hres, -⟩, hst⟩ := h
        subst hst
        have hw := getFromCache_warm opts st (generateCacheKey p) now
        rw [heq] at hw
        exact hw
      · split at h
        · exact absurd h (by simp)
        · simp only [Prod.mk.injEq, Except.ok.injEq] at h
          exact absurd h.1.2 (by simp)
  · intro res st2 h
    unfold findOptimalWealth at h
    split at h
    · exact absurd h (by simp)
    · dsimp only at h
      split at h
      · simp only [Prod.mk.injEq, Except.ok.injEq] at h
        exact absurd h.1.2 (by simp)
      · rename_i st1 heq
        split at h
        · exact absurd h (by simp)
        · rename_i result heq2
          simp only [Prod.mk.injEq, Except.ok.injEq] at h
          obtain ⟨⟨hres, -⟩, hst⟩ := h
          subst hres
          subst hst
          exact ⟨rfl, rfl⟩

/-- Stage evaluation: the cold search box for p0. -/
theorem w_sp : determineSearchSpace M0 optsW none none p0 = sp0W := by
  with_unfolding_all rfl

/-- Stage evaluation: the 1-step grid search on that box. -/
theorem w_grid : gridSearch M0 optsW p0 sp0W = g0W := by
  with_unfolding_all rfl

set_option maxRecDepth 4000 in
/-- Stage evaluation: the main-thread optimization on a fresh state. -/
theorem w_pmto : performMainThreadOptimization M0 mini0 optsW none none p0 = .ok r0W := by
  unfold performMainThreadOptimization
  dsimp only
  rw [w_sp, w_grid]
  with_unfolding_all rfl

/-- Stage evaluation: the first findOptimalWealth call from a fresh state. -/
theorem w_find1 : findOptimalWealth M0 mini0 optsW initialState p0 0 =
    (.ok (r0W, false), st1W) := by
  have hval : validateParameters p0 = true := by with_unfolding_all rfl
  have hkey : generateCacheKey p0 = p0 := by with_unfolding_all rfl
  unfold findOptimalWealth
  rw [hval, hkey]
  have hget : getFromCache optsW initialState p0 0 = (none, initialState) := rfl
  dsimp only
  rw [hget]
  dsimp only [initialState]
  rw [w_pmto]
  with_unfolding_all rfl

/-- Witness for claim C8: a concrete fresh-state call is a miss and sets the
warm-start slot to the computed point. -/
theorem claim_C8_witness :
    findOptimalWealth M0 mini0 optsW initialState p0 0 = (.ok (r0W, false), st1W) ∧
    st1W.lastOptimalResult = some (r0W.w1, r0W.w2) ∧
    st1W.lastParameters = some p0 :=
  ⟨w_find1, (claim_C8 M0 mini0 optsW initialState p0 0).2 r0W st1W w_find1⟩

theorem alistGet_insert (m : List (Params × CacheEntry)) (k : Params) (v : CacheEntry) :
    alistGet (alistInsert m k v) k = some v := by
  unfold alistInsert
  by_cases h : alistContains m k = true
  · rw [if_pos h]
    induction m with
    | nil => simp [alistContains] at h
    | cons e rest ih =>
      by_cases he : e.1 = k
      · simp [alistGet, he]
      · unfold alistContains at h
        rw [if_neg he] at h
        simpa [alistGet, he] using ih h
  · rw [if_neg h]
    simp [alistGet]

theorem alistGet_erase (m : List (Params × CacheEntry)) (k : Params) :
    alistGet (alistErase m k) k = none := by
  induction m with
  | nil => rfl
  | cons e rest ih =>
    by_cases he : e.1 = k
    · simpa [alistErase, List.filter_cons, he] using ih
    · simpa [alistErase, List.filter_cons, he, alistGet] using ih

/-- A findOptimalWealth call whose key is absent from the cache computes:
it validates, misses, runs the main-thread optimization, caches the result
and updates the warm start. -/
theorem findOpt_miss (M : MathFns) (mini : Minimizer) (opts : Options) (st : ServiceState)
    (p : Params) (now : ℕ) (r : OptResult) (hb : Bool) (st2 : ServiceState)
    (hmiss : alistGet st.cache (generateCacheKey p) = none)
    (hc : findOptimalWealth M mini opts st p now = (.ok (r, hb), st2)) :
    hb = false ∧ validateParameters p = true ∧
    performMainThreadOptimization M mini opts st.lastOptimalResult st.lastParameters p = .ok r ∧
    st2 = updateWarmStart (addToCache opts st (generateCacheKey p) r now) p r := by
  have hget : getFromCache opts st (generateCacheKey p) now = (none, st) := by
    unfold getFromCache
    rw [hmiss]
  unfold findOptimalWealth at hc
  split at hc
  · exact absurd hc (by simp)
  · rename_i hval
    dsimp only at hc
    split at hc
    · rename_i cached st1x heq
      rw [hget] at heq
      exact absurd heq (by simp)
    · rename_i st1x heq
      rw [hget] at heq
      simp only [Prod.mk.injEq] at heq
      obtain ⟨-, hstx⟩ := heq
      subst hstx
      split at hc
      · exact absurd hc (by simp)
      · rename_i result heq2
        simp only [Prod.mk.injEq, Except.ok.injEq] at hc
        obtain ⟨⟨hr, hb2⟩, hst⟩ := hc
        subst hr
        simp only [Bool.not_eq_true'] at hval
        exact ⟨hb2.symm, by simpa using hval, heq2, hst.symm⟩

/-- Claim C5: after a miss-and-compute call, an identical call within the TTL
is served from the cache with the same result values and cacheHit true, while
a call after the TTL has expired evicts the entry on read, reports a miss and
recomputes. -/
theorem claim_C5 (M : MathFns) (mini : Minimizer) (opts : Options) (st : ServiceState)
    (p : Params) (n1 n2 : ℕ) (r1 : OptResult) (h1 : Bool) (st1 : ServiceState)
    (hmiss : alistGet st.cache (generateCacheKey p) = none)
    (hcall1 : findOptimalWealth M mini opts st p n1 = (.ok (r1, h1), st1)) :
    (n2 - n1 ≤ opts.cacheTTL →
      ∃ st2, findOptimalWealth M mini opts st1 p n2 = (.ok (r1, true), st2))
    ∧ (opts.cacheTTL < n2 - n1 →
      (getFromCache opts st1 (generateCacheKey p) n2).1 = none ∧
      alistGet (getFromCache opts st1 (generateCacheKey p) n2).2.cache (generateCacheKey p) = none ∧
      (∀ r2 h2 st2, findOptimalWealth M mini opts st1 p n2 = (.ok (r2, h2), st2) →
        h2 = false ∧
        performMainThreadOptimization M mini opts st1.lastOptimalResult st1.lastParameters p
          = .ok r2)) := by
  obtain ⟨hb, hval, hpm, hst1⟩ := findOpt_miss M mini opts st p n1 r1 h1 st1 hmiss hcall1
  have hcache1 : alistGet st1.cache (generateCacheKey p) = some ⟨r1, n1⟩ := by
    rw [hst1]
    exact alistGet_insert _ _ _
  constructor
  · intro hTTL
    have hget2 : getFromCache opts st1 (generateCacheKey p) n2 =
        (some r1, { st1 with cacheOrder := (generateCacheKey p) :: (st1.cacheOrder.erase (generateCacheKey p)) }) := by
      unfold getFromCache
      rw [hcache1]
      dsimp only
      rw [if_neg (by omega)]
    refine ⟨{ st1 with cacheOrder := (generateCacheKey p) :: (st1.cacheOrder.erase (generateCacheKey p)) }, ?_⟩
    unfold findOptimalWealth
    rw [hval]
    dsimp only
    rw [hget2]
    rfl
  · intro hTTL
    have hget2 : getFromCache opts st1 (generateCacheKey p) n2 =
        (none, { st1 with cache := alistErase st1.cache (generateCacheKey p) }) := by
      unfold getFromCache
      rw [hcache1]
      dsimp only
      rw [if_pos (by omega)]
    refine ⟨by rw [hget2], ?_, ?_⟩
    · rw [hget2]
      exact alistGet_erase _ _
    · intro r2 h2 st2 hc2
      unfold findOptimalWealth at hc2
      split at hc2
      · exact absurd hc2 (by simp)
      dsimp only at hc2
      split at hc2
      case h_1 cached st1x heq =>
        rw [hget2] at heq
        exact absurd heq (by simp)
      case h_2 st1x heq =>
        rw [hget2] at heq
        simp only [Prod.mk.injEq] at heq
        obtain ⟨-, hstx⟩ := heq
        subst hstx
        split at hc2
        · exact absurd hc2 (by simp)
        · rename_i result heq2
          simp only [Prod.mk.injEq, Except.ok.injEq] at hc2
          obtain ⟨⟨hr, hb2⟩, -⟩ := hc2
          subst hr
          exact ⟨hb2.symm, heq2⟩

/-- Witness for claim C5: the concrete first call at time 0, served from the
cache at time 100 (within the 60000 ms TTL) with cacheHit true. -/
theorem claim_C5_witness :
    alistGet initialState.cache (generateCacheKey p0) = none ∧
    findOptimalWealth M0 mini0 optsW initialState p0 0 = (.ok (r0W, false), st1W) ∧
    (100 : ℕ) - 0 ≤ optsW.cacheTTL ∧
    ∃ st2, findOptimalWealth M0 mini0 optsW st1W p0 100 = (.ok (r0W, true), st2) :=
  ⟨rfl, w_find1, by decide,
    (claim_C5 M0 mini0 optsW initialState p0 0 100 r0W false st1W rfl w_find1).1 (by decide)⟩

theorem alistContains_iff (m : List (Params × CacheEntry)) (k : Params) :
    alistContains m k = true ↔ k ∈ m.map Prod.fst := by
  induction m with
  | nil => simp [alistContains]
  | cons e rest ih =>
    by_cases he : e.1 = k
    · simp [alistContains, he]
    · simp [alistContains, he, ih]
      intro h
      exact absurd h.symm he

theorem alistGet_mem_keys (m : List (Params × CacheEntry)) (k : Params) (v : CacheEntry)
    (h : alistGet m k = some v) : k ∈ m.map Prod.fst := by
  induction m with
  | nil => simp [alistGet] at h
  | cons e rest ih =>
    unfold alistGet at h
    by_cases he : e.1 = k
    · simp [he]
    · rw [if_neg he] at h
      simp [ih h]

theorem alistErase_sublist (m : List (Params × CacheEntry)) (k : Params) :
    (alistErase m k).Sublist m := List.filter_sublist m

theorem mem_keys_alistErase (m : List (Params × CacheEntry)) (k k' : Params)
    (h : k' ∈ (alistErase m k).map Prod.fst) : k' ∈ m.map Prod.fst ∧ k' ≠ k := by
  simp only [List.mem_map] at h
  obtain ⟨e, he, hfst⟩ := h
  unfold alistErase at he
  rw [List.mem_filter] at he
  obtain ⟨hem, hne⟩ := he
  refine ⟨List.mem_map.mpr ⟨e, hem, hfst⟩, ?_⟩
  subst hfst
  simpa using hne

theorem keys_alistInsert_of_contains (m : List (Params × CacheEntry)) (k : Params)
    (v : CacheEntry) (h : alistContains m k = true) :
    (alistInsert m k v).map Prod.fst = m.map Prod.fst := by
  unfold alistInsert
  rw [if_pos h]
  clear h
  induction m with
  | nil => rfl
  | cons e rest ih =>
    by_cases he : e.1 = k
    · simp [he, ih]
    · simp [he, ih]

theorem keys_alistInsert_of_not_contains (m : List (Params × CacheEntry)) (k : Params)
    (v : CacheEntry) (h : alistContains m k = false) :
    (alistInsert m k v).map Prod.fst = k :: m.map Prod.fst := by
  unfold alistInsert
  rw [h]
  simp

/-- The eviction loop keeps distinct map keys, keeps every map key inside the
(reversed) order list it returns, and returns an order list strictly below
capacity. -/
theorem evictRev_spec (size : ℕ) (hs : 1 ≤ size) (rev : List Params) :
    ∀ m : List (Params × CacheEntry),
    (m.map Prod.fst).Nodup →
    (∀ k ∈ m.map Prod.fst, k ∈ rev) →
    ((evictRev size rev m).2.map Prod.fst).Nodup ∧
    (∀ k ∈ (evictRev size rev m).2.map Prod.fst, k ∈ (evictRev size rev m).1) ∧
    (evictRev size rev m).1.length < size := by
  induction rev with
  | nil =>
    intro m hn hsub
    exact ⟨hn, hsub, by simpa using hs⟩
  | cons k rest ih =>
    intro m hn hsub
    unfold evictRev
    by_cases hlen : rest.length + 1 < size
    · rw [if_pos hlen]
      exact ⟨hn, hsub, by simpa using hlen⟩
    · rw [if_neg hlen]
      apply ih
      · exact hn.sublist ((alistErase_sublist m k).map Prod.fst)
      · intro k' hk'
        obtain ⟨hmem, hne⟩ := mem_keys_alistErase m k k' hk'
        rcases List.mem_cons.mp (hsub k' hmem) with h | h
        · exact absurd h hne
        · exact h

theorem cacheInv_initial (size : ℕ) : cacheInv size initialState := by
  refine ⟨List.nodup_nil, ?_, by simp [initialState]⟩
  intro k hk
  simp [initialState] at hk

theorem cacheInv_clearCache (size : ℕ) (st : ServiceState) :
    cacheInv size (clearCache st) := by
  refine ⟨List.nodup_nil, ?_, by simp [clearCache]⟩
  intro k hk
  simp [clearCache] at hk

theorem cacheInv_getFromCache (opts : Options) (st : ServiceState) (key : Params) (now : ℕ)
    (h : cacheInv opts.cacheSize st) :
    cacheInv opts.cacheSize (getFromCache opts st key now).2 := by
  obtain ⟨hn, hsub, hlen⟩ := h
  unfold getFromCache
  rcases hg : alistGet st.cache key with _ | entry
  · exact ⟨hn, hsub, hlen⟩
  · dsimp only
    split
    · refine ⟨hn.sublist ((alistErase_sublist st.cache key).map Prod.fst), ?_, hlen⟩
      intro k hk
      exact hsub k (mem_keys_alistErase st.cache key k hk).1
    · have hkey : key ∈ st.cacheOrder := hsub key (alistGet_mem_keys st.cache key entry hg)
      refine ⟨hn, ?_, ?_⟩
      · intro k hk
        by_cases hke : k = key
        · simp [hke]
        · simp only [List.mem_cons]
          exact Or.inr (List.mem_erase_of_ne hke |>.mpr (hsub k hk))
      · simp only [List.length_cons, List.length_erase_of_mem hkey]
        have : 1 ≤ st.cacheOrder.length := List.length_pos.mpr (List.ne_nil_of_mem hkey)
        omega

theorem cacheInv_addToCache (opts : Options) (st : ServiceState) (key : Params)
    (res : OptResult) (now : ℕ) (hs : 1 ≤ opts.cacheSize)
    (h : cacheInv opts.cacheSize st) :
    cacheInv opts.cacheSize (addToCache opts st key res now) := by
  obtain ⟨hn, hsub, hlen⟩ := h
  have hsubrev : ∀ k ∈ st.cache.map Prod.fst, k ∈ st.cacheOrder.reverse := by
    intro k hk
    exact List.mem_reverse.mpr (hsub k hk)
  obtain ⟨hn2, hsub2, hlen2⟩ := evictRev_spec opts.cacheSize hs st.cacheOrder.reverse st.cache hn hsubrev
  unfold addToCache
  dsimp only
  constructor
  · -- distinct keys after insert
    by_cases hc : alistContains (evictRev opts.cacheSize st.cacheOrder.reverse st.cache).2 key = true
    · rw [keys_alistInsert_of_contains _ _ _ hc]
      exact hn2
    · rw [keys_alistInsert_of_not_contains _ _ _ (by simpa using hc)]
      refine List.nodup_cons.mpr ⟨?_, hn2⟩
      rw [← alistContains_iff]
      simpa using hc
  constructor
  · -- keys inside the new order list
    intro k hk
    by_cases hc : alistContains (evictRev opts.cacheSize st.cacheOrder.reverse st.cache).2 key = true
    · rw [keys_alistInsert_of_contains _ _ _ hc] at hk
      simp only [List.mem_cons]
      exact Or.inr (List.mem_reverse.mpr (hsub2 k hk))
    · rw [keys_alistInsert_of_not_contains _ _ _ (by simpa using hc)] at hk
      rcases List.mem_cons.mp hk with hke | hk2
      · simp [hke]
      · simp only [List.mem_cons]
        exact Or.inr (List.mem_reverse.mpr (hsub2 k hk2))
  · -- capacity
    simp only [List.length_cons, List.length_reverse]
    omega

theorem cacheInv_findOptimalWealth (M : MathFns) (mini : Minimizer) (opts : Options)
    (st : ServiceState) (p : Params) (now : ℕ) (hs : 1 ≤ opts.cacheSize)
    (h : cacheInv opts.cacheSize st) :
    cacheInv opts.cacheSize (findOptimalWealth M mini opts st p now).2 := by
  unfold findOptimalWealth
  split
  · exact h
  · dsimp only
    split
    case h_1 cached st1x heq =>
      have := cacheInv_getFromCache opts st (generateCacheKey p) now h
      rw [heq] at this
      exact this
    case h_2 st1x heq =>
      have h1 : cacheInv opts.cacheSize st1x := by
        have := cacheInv_getFromCache opts st (generateCacheKey p) now h
        rw [heq] at this
        exact this
      split
      · exact h1
      · exact cacheInv_addToCache opts st1x (generateCacheKey p) _ now hs h1

/-- Claim C9: along any sequence of findOptimalWealth and clearCache calls
from a fresh service, the cache map never holds more than cacheSize entries
(assuming a positive capacity; with capacity 0 the JavaScript eviction loop
does not terminate).  The TTL read-eviction removes keys from the map only,
so the order list can be longer than the map, but the distinct map keys
always sit inside the order list, whose length addToCache keeps at most
cacheSize. -/
theorem claim_C9 (M : MathFns) (mini : Minimizer) (opts : Options)
    (hs : 1 ≤ opts.cacheSize) (ops : List ServiceOp) :
    (runOps M mini opts ops).cache.length ≤ opts.cacheSize := by
  have hinv : cacheInv opts.cacheSize (runOps M mini opts ops) := by
    unfold runOps
    induction ops using List.reverseRecOn with
    | nil => exact cacheInv_initial opts.cacheSize
    | append_singleton xs op ih =>
      rw [List.foldl_append, List.foldl_cons, List.foldl_nil]
      cases op with
      | find p now => exact cacheInv_findOptimalWealth M mini opts _ p now hs ih
      | clear => exact cacheInv_clearCache opts.cacheSize _
  obtain ⟨hn, hsub, hlen⟩ := hinv
  calc (runOps M mini opts ops).cache.length
      = ((runOps M mini opts ops).cache.map Prod.fst).length := by simp
    _ = ((runOps M mini opts ops).cache.map Prod.fst).toFinset.card := (List.toFinset_card_of_nodup hn).symm
    _ ≤ (runOps M mini opts ops).cacheOrder.toFinset.card := by
        apply Finset.card_le_card
        intro k hk
        rw [List.mem_toFinset] at hk ⊢
        exact hsub k hk
    _ ≤ (runOps M mini opts ops).cacheOrder.length := (runOps M mini opts ops).cacheOrder.toFinset_card_le
    _ ≤ opts.cacheSize := hlen

/-- Witness for claim C9: a concrete three-operation run (two calls and a
clear) under the default capacity stays within bounds. -/
theorem claim_C9_witness :
    1 ≤ optsW.cacheSize ∧
    (runOps M0 mini0 optsW [ServiceOp.find p0 0, ServiceOp.find p0 100, ServiceOp.clear]).cache.length ≤ optsW.cacheSize :=
  ⟨by decide, claim_C9 M0 mini0 optsW (by decide) [ServiceOp.find p0 0, ServiceOp.find p0 100, ServiceOp.clear]⟩

theorem jsSEq_fin_iff (a b : ℚ) : jsSEq (.fin a) (.fin b) = true ↔ a = b := by
  simp only [jsSEq, Bool.and_eq_true, beq_iff_eq]
  constructor
  · rintro ⟨h1, h2⟩
    exact Rat.ext h1 h2
  · rintro rfl
    exact ⟨rfl, rfl⟩

theorem jsLe_refl_fin (q : ℚ) : jsLe (.fin q) (.fin q) = true := by
  simp [jsLe]

/-- One grid-body step preserves the accumulator invariant. -/
theorem gridBody_inv (M : MathFns) (opts : Options) (p : Params) (space : SearchSpace)
    (acc : GridAcc) (ij : ℕ × ℕ) (h : gridInvariant M p acc) :
    gridInvariant M p (gridBody M opts p space acc ij) := by
  unfold gridBody
  dsimp only
  split
  · exact h
  · split
    · rename_i hcc hup
      right
      simp only [Bool.not_eq_true', Bool.and_eq_true] at hcc hup
      exact ⟨hup.1, eq_true_of_ne_false hcc, rfl⟩
    · exact h

theorem gridFold_inv (M : MathFns) (opts : Options) (p : Params) (space : SearchSpace)
    (l : List (ℕ × ℕ)) (acc : GridAcc) (h : gridInvariant M p acc) :
    gridInvariant M p (l.foldl (gridBody M opts p space) acc) := by
  induction l generalizing acc with
  | nil => exact h
  | cons x xs ih => exact ih _ (gridBody_inv M opts p space acc x h)

/-- A successful grid search returns a feasible point with a finite recorded
utility equal to its lifetimeUtility. -/
theorem gridSearch_success_inv (M : MathFns) (opts : Options) (p : Params)
    (space : SearchSpace) (hs : (gridSearch M opts p space).success = true) :
    isFin (gridSearch M opts p space).utility = true ∧
    checkConstraints M (gridSearch M opts p space).w1 (gridSearch M opts p space).w2 p = true ∧
    lifetimeUtility M p.r p.rho p.gamma p.t1 p.t2 p.beta p.eta p.tau p.w0
      (gridSearch M opts p space).w1 (gridSearch M opts p space).w2 =
      (gridSearch M opts p space).utility := by
  have hinv := gridFold_inv M opts p space (gridIndices opts.gridSteps)
    ⟨space.centerW1, space.centerW2, .ninf, 0⟩ (Or.inl rfl)
  unfold gridSearch at hs ⊢
  dsimp only at hs ⊢
  rcases hinv with hninf | ⟨h1, h2, h3⟩
  · rw [hninf] at hs
    simp [jsLt] at hs
  · exact ⟨h1, h2, h3⟩

/-- The penalized objective never returns NaN or an infinity. -/
theorem objectiveFunction_isFin (M : MathFns) (p : Params) (vars : JS × JS) :
    isFin (objectiveFunction M p vars) = true := by
  unfold objectiveFunction
  dsimp only
  split
  · rfl
  · split
    · rfl
    · rename_i hu
      simp only [Bool.or_eq_true, Bool.not_eq_true'] at hu
      push_neg at hu
      rcases hu with ⟨hu1, -⟩
      have hu2 := eq_true_of_ne_false hu1
      rw [isFin_iff] at hu2
      obtain ⟨q, hq⟩ := hu2
      rw [hq]
      rfl

/-- Claim C3 (amended): on grid success, the point returned by the solve
always satisfies checkConstraints; and provided the minimizer reports
honestly (f is the objective at its solution), does not report a value above
the objective at its seed, and the grid argmax utility is not the sentinel
-5000, the returned utility is at least the grid argmax utility.  (As stated
the claim is false: the acceptance test in numericalRefinement does not
compare against the grid objective, so when the grid argmax carries the
sentinel the refinement can regress; see the counterexample.) -/
theorem claim_C3 (M : MathFns) (mini : Minimizer) (opts : Options)
    (lastOpt : Option (JS × JS)) (lastParams : Option Params) (p : Params)
    (res : OptResult)
    (hdes : ∀ x0 tol maxIt mres, mini (objectiveFunction M p) x0 tol maxIt = some mres →
      jsLe mres.f (objectiveFunction M p x0) = true)
    (hok : performMainThreadOptimization M mini opts lastOpt lastParams p = .ok res) :
    checkConstraints M res.w1 res.w2 p = true ∧
    ((gridSearch M opts p (determineSearchSpace M opts lastOpt lastParams p)).utility ≠ J (-5000) →
      jsLe (gridSearch M opts p (determineSearchSpace M opts lastOpt lastParams p)).utility
        res.utility = true) := by
  unfold performMainThreadOptimization at hok
  dsimp only at hok
  split at hok
  case isFalse => exact absurd hok (by simp)
  case isTrue hsucc =>
  simp only [Except.ok.injEq] at hok
  obtain ⟨hg1, hg2, hg3⟩ := gridSearch_success_inv M opts p
    (determineSearchSpace M opts lastOpt lastParams p) hsucc
  set g := gridSearch M opts p (determineSearchSpace M opts lastOpt lastParams p) with hgdef
  rw [isFin_iff] at hg1
  obtain ⟨qg, hqg⟩ := hg1
  have hobjseed : g.utility ≠ J (-5000) →
      objectiveFunction M p (g.w1, g.w2) = jsNeg g.utility := by
    intro hne
    unfold objectiveFunction
    dsimp only
    rw [hg2]
    simp only [Bool.not_true, Bool.false_eq_true, if_false]
    rw [hg3, hqg]
    have hseq : jsSEq (.fin qg) (J (-5000)) = false := by
      rw [Bool.eq_false_iff]
      intro hcon
      apply hne
      rw [hqg]
      exact congrArg JS.fin ((jsSEq_fin_iff qg (-5000)).mp hcon)
    rw [hseq]
    simp [isFin]
  rw [← hok]
  unfold numericalRefinement
  dsimp only
  rcases hm : mini (objectiveFunction M p) (g.w1, g.w2) opts.tolerance opts.maxIterations with
    _ | mres
  · refine ⟨hg2, fun hne => ?_⟩
    rw [hqg]
    exact jsLe_refl_fin qg
  · dsimp only
    split
    case isFalse =>
      refine ⟨hg2, fun hne => ?_⟩
      rw [hqg]
      exact jsLe_refl_fin qg
    case isTrue hacc =>
      split
      case isFalse =>
        refine ⟨hg2, fun hne => ?_⟩
        rw [hqg]
        exact jsLe_refl_fin qg
      case isTrue hccres =>
        refine ⟨hccres, fun hne => ?_⟩
        simp only [Bool.and_eq_true] at hacc
        obtain ⟨hfinf, -⟩ := hacc
        rw [isFin_iff] at hfinf
        obtain ⟨qf, hqf⟩ := hfinf
        have hd := hdes (g.w1, g.w2) opts.tolerance opts.maxIterations mres hm
        rw [hobjseed hne, hqg] at hd
        rw [hqf] at hd
        simp only [jsNeg, jsLe, decide_eq_true_eq] at hd
        dsimp only
        rw [hqf, hqg]
        simp only [jsNeg, jsLe, decide_eq_true_eq]
        linarith

/-- Witness for claim C3 (amended) at concrete inputs: the fresh-state solve
for p0 keeps the (feasible) grid point. -/
theorem claim_C3_witness :
    performMainThreadOptimization M0 mini0 optsW none none p0 = .ok r0W ∧
    checkConstraints M0 r0W.w1 r0W.w2 p0 = true :=
  ⟨w_pmto,
    (claim_C3 M0 mini0 optsW none none p0 r0W
      (fun x0 tol maxIt mres h => by
        cases h
        have hf := objectiveFunction_isFin M0 p0 x0
        rw [isFin_iff] at hf
        obtain ⟨q, hq⟩ := hf
        rw [hq]
        exact jsLe_refl_fin q)
      w_pmto).1⟩

set_option maxRecDepth 8000 in
/-- Counterexample to claim C3 as stated: with a feasible box whose every
grid sample evaluates to the sentinel -5000, the grid search succeeds with
utility -5000, and an honest minimizer whose report does not exceed the
objective at the seed returns a feasible point with finite objective 40000
below 1e9; numericalRefinement accepts it without comparing against the grid
objective, and the solve returns utility -40000, strictly below the grid
argmax utility -5000: the refinement regresses the solution. -/
theorem claim_C3_counterexample :
    minimizerHonest mini1 ∧
    gridSearch M0 optsC p0 (determineSearchSpace M0 optsC none none p0) =
      ⟨true, J (18/25), J (3/5), J (-5000), 25⟩ ∧
    jsLe (objectiveFunction M0 p0 (J 1, J (1/2)))
      (objectiveFunction M0 p0 (J (18/25), J (3/5))) = true ∧
    checkConstraints M0 (J 1) (J (1/2)) p0 = true ∧
    performMainThreadOptimization M0 mini1 optsC none none p0 =
      .ok ⟨J 1, J (1/2), J (-40000), 1, .converged, .numerical_refinement⟩ ∧
    jsLt (J (-40000)) (J (-5000)) = true := by
  refine ⟨fun obj x0 tol maxIt res h => by cases h; rfl, ?_, ?_, ?_, ?_, ?_⟩
  · with_unfolding_all rfl
  · with_unfolding_all decide
  · with_unfolding_all decide
  · with_unfolding_all rfl
  · with_unfolding_all decide

theorem fin_mul_fin (a b : ℚ) : (JS.fin a) * (JS.fin b) = JS.fin (a * b) := rfl

theorem nan_mul (x : JS) : JS.nan * x = JS.nan := by cases x <;> rfl

theorem mul_nan (x : JS) : x * JS.nan = JS.nan := by cases x <;> rfl

theorem nan_div (x : JS) : JS.nan / x = JS.nan := by cases x <;> rfl

theorem fin_add_fin (a b : ℚ) : (JS.fin a) + (JS.fin b) = JS.fin (a + b) := rfl

theorem fin_sub_fin (a b : ℚ) : (JS.fin a) - (JS.fin b) = JS.fin (a - b) := by
  show jsSub _ _ = _
  simp [jsSub, jsAdd, jsNeg]
  ring

theorem fin_div_fin (a b : ℚ) (hb : b ≠ 0) : (JS.fin a) / (JS.fin b) = JS.fin (a / b) := by
  show jsDiv _ _ = _
  simp [jsDiv, hb]

theorem jsNeg_fin (a : ℚ) : jsNeg (JS.fin a) = JS.fin (-a) := rfl

theorem inf_mul_fin_pos (b : ℚ) (hb : 0 < b) : (JS.inf) * (JS.fin b) = JS.inf := by
  show jsMul _ _ = _
  simp [jsMul, hb]

theorem inf_sub_nan : (JS.inf) - JS.nan = JS.nan := rfl

theorem fin_sub_nan (a : ℚ) : (JS.fin a) - JS.nan = JS.nan := rfl

theorem jsLe_fin_fin (a b : ℚ) : jsLe (.fin a) (.fin b) = decide (a ≤ b) := rfl

theorem jsLt_fin_fin (a b : ℚ) : jsLt (.fin a) (.fin b) = decide (a < b) := rfl

theorem jsSEq_fin_false_of_ne (a b : ℚ) (h : a ≠ b) : jsSEq (.fin a) (.fin b) = false := by
  rw [Bool.eq_false_iff]
  intro hc
  exact h ((jsSEq_fin_iff a b).mp hc)

theorem kappa_fin (qr qrho qg : ℚ) (hg : qg ≠ 0) :
    kappa (.fin qr) (.fin qrho) (.fin qg) = .ok (.fin ((qr * (qg - 1) + qrho) / qg)) := by
  unfold kappa
  rw [jsSEq_fin_false_of_ne qg 0 hg]
  dsimp only
  rw [show (JS.fin qg - J 1) = JS.fin (qg - 1) from fin_sub_fin qg 1]
  rw [fin_mul_fin, fin_add_fin, fin_div_fin _ _ hg]
  rfl

/-- With validated-style finite arguments and a NaN terminal value, U2 always
signals an error: term1 is NaN, which slips past the nonpositivity guards,
and NaN then propagates through the power expression to the final isFinite
check (or term2 is nonpositive and that guard fires first). -/
theorem U2_nanB_error (M : MathFns) (qr qrho qg qT qA : ℚ)
    (hT : 0 < qT) (hA : 0 < qA) (hg0 : qg ≠ 0) (hg1 : qg ≠ 1) :
    ∃ e, U2 M (.fin qr) (.fin qrho) (.fin qg) (.fin qT) (.fin qA) .nan = .error e := by
  unfold U2
  have hTle : jsLe (.fin qT) (J 0) = false := by
    rw [jsLe_fin_fin]
    simpa using not_le.mpr hT
  rw [hTle]
  simp only [Bool.false_eq_true, if_false]
  rw [fin_mul_fin]
  have hterm1 : M.exp (.fin (qr * qT)) * JS.fin qA - JS.nan = JS.nan := by
    rcases M.exp_fin (qr * qT) with ⟨pE, hpE, hE⟩ | hE
    · rw [hE, fin_mul_fin, fin_sub_nan]
    · rw [hE, inf_mul_fin_pos qA hA, inf_sub_nan]
  rw [hterm1]
  simp only [jsLe_nan_left, Bool.false_eq_true, if_false]
  rw [kappa_fin qr qrho qg hg0]
  dsimp only
  rw [jsNeg_fin, fin_mul_fin]
  rw [show (JS.fin qr - JS.fin qrho) = JS.fin (qr - qrho) from fin_sub_fin qr qrho]
  rw [fin_mul_fin, fin_div_fin _ _ hg0]
  have hne1 : jsSEq (JS.fin qg) (J 1) = false := jsSEq_fin_false_of_ne qg 1 hg1
  have hgt : (J 1 - JS.fin qg) = JS.fin (1 - qg) := fin_sub_fin 1 qg
  have hpnan : M.pow JS.nan (J 1 - JS.fin qg) = JS.nan := by
    rw [hgt]
    apply M.pow_nan
    intro hc
    apply hg1
    have : (1 : ℚ) - qg = 0 := by injection hc
    linarith
  -- case on the two exponentials forming term2
  rcases M.exp_fin (qr * qT) with ⟨pE, hpE, hE⟩ | hE <;>
    rcases M.exp_fin ((qr - qrho) * qT / qg) with ⟨pF, hpF, hF⟩ | hF <;>
      rw [hE, hF]
  · -- fin - fin
    rw [fin_sub_fin]
    by_cases hle : jsLe (JS.fin (pE - pF)) (J 0) = true
    · rw [hle]
      exact ⟨_, rfl⟩
    · have hlt2 : jsLt (JS.fin (pE - pF)) (J 0) = false :=
        jsLt_false_of_jsLe_false _ _ (Bool.eq_false_iff.mpr hle)
      rw [Bool.eq_false_iff.mpr hle]
      simp only [Bool.false_eq_true, if_false, hne1, Bool.not_false, Bool.false_and,
        Bool.true_and, Bool.and_false, jsLt_nan_left, hlt2]
      rw [hpnan]
      simp only [nan_mul, nan_div]
      exact ⟨_, rfl⟩
  · -- fin - inf = ninf: the term2 guard fires
    rw [show JS.fin pE - JS.inf = JS.ninf from rfl]
    rw [show jsLe JS.ninf (J 0) = true from rfl]
    exact ⟨_, rfl⟩
  · -- inf - fin = inf
    rw [show JS.inf - JS.fin pF = JS.inf from rfl]
    rw [show jsLe JS.inf (J 0) = false from rfl]
    simp only [Bool.false_eq_true, if_false, hne1, Bool.not_false, Bool.true_and,
      jsLt_nan_left, jsLt_inf_left, Bool.false_and, Bool.and_false]
    rw [hpnan]
    simp only [nan_mul, nan_div]
    exact ⟨_, rfl⟩
  · -- inf - inf = nan
    rw [show JS.inf - JS.inf = JS.nan from rfl]
    rw [jsLe_nan_left]
    simp only [Bool.false_eq_true, if_false, hne1, Bool.not_false, Bool.true_and,
      jsLt_nan_left, Bool.false_and, Bool.and_false]
    rw [hpnan]
    simp only [nan_mul, nan_div]
    exact ⟨_, rfl⟩

theorem inRange_fin (q lo hi : ℚ) (h : inRange (.fin q) lo hi = true) : lo ≤ q ∧ q ≤ hi := by
  simp only [inRange, jsLt_fin_fin, Bool.not_eq_true', Bool.or_eq_false_iff,
    decide_eq_false_iff_not, not_lt] at h
  exact ⟨h.1, h.2⟩

/-- The numeric facts parameter validation guarantees, as rational bounds. -/
theorem validate_fields (p : Params) (h : validateParameters p = true) :
    ∃ qr qrho qg qe qb qt qt1 qt2 qw : ℚ,
      p.r = .fin qr ∧ p.rho = .fin qrho ∧ p.gamma = .fin qg ∧ p.eta = .fin qe ∧
      p.beta = .fin qb ∧ p.tau = .fin qt ∧ p.t1 = .fin qt1 ∧ p.t2 = .fin qt2 ∧ p.w0 = .fin qw ∧
      1/1000 ≤ qr ∧ qr ≤ 1/5 ∧ 1/10 ≤ qg ∧ qg ≤ 5 ∧ qg ≠ 1 ∧ qe ≠ 1 ∧
      0 ≤ qt ∧ qt ≤ 99/100 ∧ 1 ≤ qt1 ∧ qt1 ≤ 100 ∧ 1 ≤ qt2 ∧ qt2 ≤ 100 ∧
      1/100 ≤ qw ∧ qw ≤ 1000 := by
  simp only [validateParameters, Bool.and_eq_true, and_assoc] at h
  obtain ⟨hr1, hr2, hrho1, hrho2, hg1, hg2, hg3, he1, he2, he3, hb1, hb2,
    ht1, ht2, hT11, hT12, hT13, hT21, hT22, hT23, hw1, hw2, -⟩ := h
  rw [isFin_iff] at hr2 hrho2 hg2 he2 hb2 ht2 hT13 hT23 hw2
  obtain ⟨qr, hqr⟩ := hr2
  obtain ⟨qrho, hqrho⟩ := hrho2
  obtain ⟨qg, hqg⟩ := hg2
  obtain ⟨qe, hqe⟩ := he2
  obtain ⟨qb, hqb⟩ := hb2
  obtain ⟨qt, hqt⟩ := ht2
  obtain ⟨qt1, hqt1⟩ := hT13
  obtain ⟨qt2, hqt2⟩ := hT23
  obtain ⟨qw, hqw⟩ := hw2
  rw [hqr] at hr1
  rw [hqg] at hg1 hg3
  rw [hqe] at he1 he3
  rw [hqt] at ht1
  rw [hqt1] at hT11
  rw [hqt2] at hT21
  rw [hqw] at hw1
  obtain ⟨hr1a, hr1b⟩ := inRange_fin _ _ _ hr1
  obtain ⟨hg1a, hg1b⟩ := inRange_fin _ _ _ hg1
  obtain ⟨ht1a, ht1b⟩ := inRange_fin _ _ _ ht1
  obtain ⟨hT11a, hT11b⟩ := inRange_fin _ _ _ hT11
  obtain ⟨hT21a, hT21b⟩ := inRange_fin _ _ _ hT21
  obtain ⟨hw1a, hw1b⟩ := inRange_fin _ _ _ hw1
  have hgne : qg ≠ 1 := by
    intro hc
    subst hc
    simp [jsSEq, Bool.not_eq_true'] at hg3
  have hene : qe ≠ 1 := by
    intro hc
    subst hc
    simp [jsSEq, Bool.not_eq_true'] at he3
  exact ⟨qr, qrho, qg, qe, qb, qt, qt1, qt2, qw, hqr, hqrho, hqg, hqe, hqb, hqt, hqt1, hqt2, hqw,
    hr1a, hr1b, hg1a, hg1b, hgne, hene, ht1a, ht1b, hT11a, hT11b, hT21a, hT21b, hw1a, hw1b⟩

/-- With validated parameters, a NaN w1 makes lifetimeUtility return the
sentinel: the period-1 utility call U2(t1, w0, NaN) signals an error. -/
theorem LU_nan_w1 (M : MathFns) (qr qrho qg qt1 qw : ℚ) (t2 beta eta tau w2 : JS)
    (ht1 : 0 < qt1) (hw : 0 < qw) (hg0 : qg ≠ 0) (hg1 : qg ≠ 1) :
    lifetimeUtility M (.fin qr) (.fin qrho) (.fin qg) (.fin qt1) t2 beta eta tau (.fin qw)
      .nan w2 = J (-5000) := by
  obtain ⟨e, he⟩ := U2_nanB_error M qr qrho qg qt1 qw ht1 hw hg0 hg1
  unfold lifetimeUtility
  rw [he]

/-- With validated parameters and a positive finite w1, a NaN w2 makes
lifetimeUtility return the sentinel: the period-2 utility call
U2(t2, w1*(1-tau), NaN) signals an error (or period 1 failed already). -/
theorem LU_nan_w2 (M : MathFns) (qr qrho qg qt1 qt2 qw qtau qw1 : ℚ) (beta eta : JS)
    (ht2 : 0 < qt2) (hg0 : qg ≠ 0) (hg1 : qg ≠ 1) (hw1 : 0 < qw1) (htau : qtau < 1) :
    lifetimeUtility M (.fin qr) (.fin qrho) (.fin qg) (.fin qt1) (.fin qt2) beta eta
      (.fin qtau) (.fin qw) (.fin qw1) .nan = J (-5000) := by
  have hA : (0 : ℚ) < qw1 * (1 - qtau) := by
    apply mul_pos hw1
    linarith
  obtain ⟨e, he⟩ := U2_nanB_error M qr qrho qg qt2 (qw1 * (1 - qtau)) ht2 hA hg0 hg1
  rcases hu1 : U2 M (.fin qr) (.fin qrho) (.fin qg) (.fin qt1) (.fin qw) (.fin qw1) with e1 | u1
  · unfold lifetimeUtility
    rw [hu1]
  · obtain ⟨hf1, hs1⟩ := U2_ok_isFin M _ _ _ _ _ _ _ hu1
    unfold lifetimeUtility
    rw [hu1]
    have harg : (JS.fin qw1 * (J 1 - JS.fin qtau)) = JS.fin (qw1 * (1 - qtau)) := by
      rw [fin_sub_fin, fin_mul_fin]
    rw [harg, he]
    simp [hf1, hs1]

theorem jsMax_fin (a b : ℚ) : jsMax (.fin a) (.fin b) = .fin (max a b) := rfl

theorem jsMin_fin (a b : ℚ) : jsMin (.fin a) (.fin b) = .fin (min a b) := rfl

/-- exp(r*t) stays a positive finite value for validated magnitudes: the
exponent is at most 20, far below the double overflow threshold 709. -/
theorem exp_rt_fin (M : MathFns) (qr qt : ℚ) (hr2 : qr ≤ 1/5) (ht1 : 1 ≤ qt)
    (ht2 : qt ≤ 100) :
    ∃ qe : ℚ, 0 < qe ∧ M.exp (.fin (qr * qt)) = .fin qe := by
  apply M.exp_fin_small
  have h0 : (0:ℚ) ≤ qt := by linarith
  have hmul : qr * qt ≤ (1/5) * 100 := mul_le_mul hr2 ht2 h0 (by norm_num)
  linarith

/-- The feasibility bound maxW1 = exp(r*t1)*w0 is a positive finite value for
validated parameters. -/
theorem maxW1_fin (M : MathFns) (p : Params) (h : validateParameters p = true) :
    ∃ qm : ℚ, 0 < qm ∧ M.exp (p.r * p.t1) * p.w0 = .fin qm := by
  obtain ⟨qr, qrho, qg, qe, qb, qt, qt1, qt2, qw, hr, hrho, hg, he, hb, ht, ht1, ht2, hw,
    hr1, hr2, hg1, hg2, hgne, hene, ht0, ht99, hT11, hT12, hT21, hT22, hw1, hw2⟩ :=
    validate_fields p h
  obtain ⟨qe1, hqe1, hexp⟩ := exp_rt_fin M qr qt1 hr2 hT11 hT12
  refine ⟨qe1 * qw, mul_pos hqe1 (by linarith), ?_⟩
  rw [hr, ht1, hw, fin_mul_fin, hexp, fin_mul_fin]

/-- With validated parameters and a finite warm hint, all four box bounds of
determineSearchSpace are finite. -/
theorem searchSpace_boxFin (M : MathFns) (opts : Options)
    (lastOpt : Option (JS × JS)) (lastParams : Option Params) (p : Params)
    (hval : validateParameters p = true)
    (hwarm : ∀ a b, lastOpt = some (a, b) → isFin a = true ∧ isFin b = true) :
    boxFin (determineSearchSpace M opts lastOpt lastParams p) := by
  obtain ⟨qm, hqm0, hm⟩ := maxW1_fin M p hval
  unfold determineSearchSpace
  dsimp only
  rw [hm]
  rcases lastOpt with _ | ⟨a, b⟩
  · exact ⟨rfl, rfl, rfl, rfl⟩
  · dsimp only
    split
    · split
      · obtain ⟨ha, hb⟩ := hwarm a b rfl
        rw [isFin_iff] at ha hb
        obtain ⟨qa, rfl⟩ := ha
        obtain ⟨qb, rfl⟩ := hb
        exact ⟨rfl, rfl, rfl, rfl⟩
      · exact ⟨rfl, rfl, rfl, rfl⟩
    · exact ⟨rfl, rfl, rfl, rfl⟩

/-- Grid sample points over a finite box with at least one step are finite. -/
theorem gridPoint_fin (qlo qhi : ℚ) (steps i : ℕ) (hs : 1 ≤ steps) :
    gridPoint (.fin qlo) (.fin qhi) steps i =
      .fin (qlo + (qhi - qlo) * (i : ℚ) / (steps : ℚ)) := by
  unfold gridPoint
  rw [fin_sub_fin, fin_mul_fin, fin_div_fin, fin_add_fin]
  exact Nat.cast_ne_zero.mpr (by omega)

/-- One grid-body step preserves the strengthened accumulator invariant when
the box is finite and the grid has at least one step. -/
theorem gridBodyF_inv (M : MathFns) (opts : Options) (p : Params) (space : SearchSpace)
    (acc : GridAcc) (ij : ℕ × ℕ) (q1 q2 q3 q4 : ℚ)
    (hq1 : space.w1Min = .fin q1) (hq2 : space.w1Max = .fin q2)
    (hq3 : space.w2Min = .fin q3) (hq4 : space.w2Max = .fin q4)
    (hs : 1 ≤ opts.gridSteps)
    (h : gridInvariantF M p acc) : gridInvariantF M p (gridBody M opts p space acc ij) := by
  unfold gridBody
  dsimp only
  split
  · exact h
  · split
    · rename_i hcc hup
      right
      simp only [Bool.not_eq_true', Bool.and_eq_true] at hcc hup
      refine ⟨?_, ?_, hup.1, eq_true_of_ne_false hcc, rfl⟩
      · rw [hq1, hq2, gridPoint_fin _ _ _ _ hs]
        rfl
      · rw [hq3, hq4, gridPoint_fin _ _ _ _ hs]
        rfl
    · exact h

theorem gridFoldF_inv (M : MathFns) (opts : Options) (p : Params) (space : SearchSpace)
    (l : List (ℕ × ℕ)) (acc : GridAcc) (q1 q2 q3 q4 : ℚ)
    (hq1 : space.w1Min = .fin q1) (hq2 : space.w1Max = .fin q2)
    (hq3 : space.w2Min = .fin q3) (hq4 : space.w2Max = .fin q4)
    (hs : 1 ≤ opts.gridSteps) (h : gridInvariantF M p acc) :
    gridInvariantF M p (l.foldl (gridBody M opts p space) acc) := by
  induction l generalizing acc with
  | nil => exact h
  | cons x xs ih =>
    exact ih _ (gridBodyF_inv M opts p space acc x q1 q2 q3 q4 hq1 hq2 hq3 hq4 hs h)

/-- A successful grid search over a finite box (with at least one step) has
finite best coordinates alongside its finite best utility. -/
theorem gridSearchF_success (M : MathFns) (opts : Options) (p : Params)
    (space : SearchSpace) (hbox : boxFin space) (hs : 1 ≤ opts.gridSteps)
    (hsucc : (gridSearch M opts p space).success = true) :
    isFin (gridSearch M opts p space).w1 = true ∧
    isFin (gridSearch M opts p space).w2 = true ∧
    isFin (gridSearch M opts p space).utility = true := by
  obtain ⟨hb1, hb2, hb3, hb4⟩ := hbox
  rw [isFin_iff] at hb1 hb2 hb3 hb4
  obtain ⟨q1, hq1⟩ := hb1
  obtain ⟨q2, hq2⟩ := hb2
  obtain ⟨q3, hq3⟩ := hb3
  obtain ⟨q4, hq4⟩ := hb4
  have hinv := gridFoldF_inv M opts p space (gridIndices opts.gridSteps)
    ⟨space.centerW1, space.centerW2, .ninf, 0⟩ q1 q2 q3 q4 hq1 hq2 hq3 hq4 hs (Or.inl rfl)
  unfold gridSearch at hsucc ⊢
  dsimp only at hsucc ⊢
  rcases hinv with hninf | ⟨h1, h2, h3, -, -⟩
  · rw [hninf] at hsucc
    simp [jsLt] at hsucc
  · exact ⟨h1, h2, h3⟩

/-- A -Infinity first coordinate always fails the feasibility test. -/
theorem cc_ninf_w1 (M : MathFns) (w2 : JS) (p : Params) :
    checkConstraints M .ninf w2 p = false := by
  unfold checkConstraints
  rw [show jsLe JS.ninf (J 0) = true from rfl]
  simp

/-- A -Infinity second coordinate always fails the feasibility test. -/
theorem cc_ninf_w2 (M : MathFns) (w1 : JS) (p : Params) :
    checkConstraints M w1 .ninf p = false := by
  unfold checkConstraints
  rw [show jsLe JS.ninf (J 0) = true from rfl]
  simp

/-- A +Infinity first coordinate always fails the feasibility test when the
upper bound maxW1 is finite. -/
theorem cc_inf_w1 (M : MathFns) (w2 : JS) (p : Params) (qm : ℚ)
    (hm : M.exp (p.r * p.t1) * p.w0 = .fin qm) :
    checkConstraints M .inf w2 p = false := by
  unfold checkConstraints
  dsimp only
  rw [hm]
  rw [show jsLe JS.inf (J 0) = false from rfl]
  rw [show jsGe JS.inf (JS.fin qm) = true from rfl]
  cases hw2 : jsLe w2 (J 0) <;> simp [hw2]

/-- A +Infinity second coordinate always fails the feasibility test when the
first coordinate is finite and tau and exp(r*t2) are finite (the upper bound
maxW2 is then finite). -/
theorem cc_inf_w2 (M : MathFns) (q1 : ℚ) (p : Params) (qt qe2 : ℚ)
    (htau : p.tau = .fin qt) (hexp : M.exp (p.r * p.t2) = .fin qe2) :
    checkConstraints M (.fin q1) .inf p = false := by
  unfold checkConstraints
  dsimp only
  rw [htau, hexp]
  rw [show jsLe JS.inf (J 0) = false from rfl]
  rw [show J 1 - JS.fin qt = JS.fin (1 - qt) from fin_sub_fin 1 qt]
  rw [fin_mul_fin, fin_mul_fin]
  rw [show jsGe JS.inf (JS.fin (q1 * (1 - qt) * qe2)) = true from rfl]
  cases h1 : jsLe (JS.fin q1) (J 0) <;>
    cases h2 : jsGe (JS.fin q1) (M.exp (p.r * p.t1) * p.w0) <;> simp [h1, h2]

/-- A feasible point has a positive first coordinate when that coordinate is
finite. -/
theorem cc_true_w1_pos (M : MathFns) (q1 : ℚ) (w2 : JS) (p : Params)
    (h : checkConstraints M (.fin q1) w2 p = true) : 0 < q1 := by
  by_contra hle
  push_neg at hle
  unfold checkConstraints at h
  rw [show jsLe (JS.fin q1) (J 0) = true from by
    rw [jsLe_fin_fin]; exact decide_eq_true hle] at h
  simp at h

/-- The penalized objective is the penalty 1e10 whenever the first coordinate
is NaN: either feasibility fails, or the utility is the -5000 sentinel, which
the objective maps to the penalty as well. -/
theorem obj_nan_w1 (M : MathFns) (p : Params) (vars : JS × JS)
    (h1 : vars.1 = .nan) (hval : validateParameters p = true) :
    objectiveFunction M p vars = J 10000000000 := by
  obtain ⟨qr, qrho, qg, qe, qb, qt, qt1, qt2, qw, hr, hrho, hg, he, hb, ht, ht1, ht2, hw,
    hr1, hr2, hg1, hg2, hgne, hene, ht0, ht99, hT11, hT12, hT21, hT22, hw1, hw2⟩ :=
    validate_fields p hval
  unfold objectiveFunction
  dsimp only
  rw [h1, hr, hrho, hg, ht1, hw]
  rw [LU_nan_w1 M qr qrho qg qt1 qw p.t2 p.beta p.eta p.tau vars.2
    (by linarith) (by linarith) (by intro hc; rw [hc] at hg1; norm_num at hg1) hgne]
  rw [(jsSEq_fin_iff (-5000) (-5000)).mpr rfl]
  simp

/-- The penalized objective is the penalty 1e10 whenever the second coordinate
is NaN and the first is finite. -/
theorem obj_nan_w2 (M : MathFns) (p : Params) (vars : JS × JS) (q1 : ℚ)
    (h1 : vars.1 = .fin q1) (h2 : vars.2 = .nan) (hval : validateParameters p = true) :
    objectiveFunction M p vars = J 10000000000 := by
  obtain ⟨qr, qrho, qg, qe, qb, qt, qt1, qt2, qw, hr, hrho, hg, he, hb, ht, ht1, ht2, hw,
    hr1, hr2, hg1, hg2, hgne, hene, ht0, ht99, hT11, hT12, hT21, hT22, hw1, hw2⟩ :=
    validate_fields p hval
  unfold objectiveFunction
  dsimp only
  rw [h1, h2, hr, hrho, hg, ht1, ht2, ht, hw]
  cases hcc : checkConstraints M (.fin q1) .nan p with
  | false => simp [hcc]
  | true =>
    have hq1 : 0 < q1 := cc_true_w1_pos M q1 .nan p hcc
    rw [LU_nan_w2 M qr qrho qg qt1 qt2 qw qt q1 p.beta p.eta
      (by linarith) (by intro hc; rw [hc] at hg1; norm_num at hg1) hgne hq1 (by linarith)]
    rw [(jsSEq_fin_iff (-5000) (-5000)).mpr rfl]
    simp

/-- Under validated parameters and an honest minimizer, numericalRefinement
returns all-finite fields whenever the grid result it falls back to is
all-finite: an accepted refined point must have finite coordinates, since a
NaN coordinate forces the reported objective to the rejected penalty 1e10 and
an infinite coordinate fails the feasibility check. -/
theorem refine_fin (M : MathFns) (mini : Minimizer) (opts : Options) (p : Params)
    (g : GridOut) (hhon : minimizerHonest mini) (hval : validateParameters p = true)
    (hg1 : isFin g.w1 = true) (hg2 : isFin g.w2 = true) (hg3 : isFin g.utility = true) :
    finResultB (numericalRefinement M mini opts p g) = true := by
  have hfall : finResultB ⟨g.w1, g.w2, g.utility, 0, .grid_only, .grid_search⟩ = true := by
    unfold finResultB
    dsimp only
    rw [hg1, hg2, hg3]
    rfl
  unfold numericalRefinement
  dsimp only
  rcases hm : mini (objectiveFunction M p) (g.w1, g.w2) opts.tolerance opts.maxIterations with
    _ | res
  · exact hfall
  · dsimp only
    split
    case isFalse => exact hfall
    case isTrue hacc =>
      split
      case isFalse => exact hfall
      case isTrue hcc =>
        have hfres := hhon _ _ _ _ _ hm
        simp only [Bool.and_eq_true] at hacc
        obtain ⟨hfinf, hflt⟩ := hacc
        obtain ⟨qm, hqm0, hmw⟩ := maxW1_fin M p hval
        obtain ⟨qr, qrho, qg, qe, qb, qt, qt1, qt2, qw, hr, hrho, hg, he, hb, ht, ht1, ht2,
          hw, hr1, hr2, hg1b, hg2b, hgne, hene, ht0, ht99, hT11, hT12, hT21, hT22,
          hw1b, hw2b⟩ := validate_fields p hval
        obtain ⟨qe2, hqe20, hexp2⟩ := exp_rt_fin M qr qt2 hr2 hT21 hT22
        have hexp2f : M.exp (p.r * p.t2) = .fin qe2 := by
          rw [hr, ht2, fin_mul_fin]
          exact hexp2
        cases hs1 : res.solution.1 with
        | fin q1 =>
          cases hs2 : res.solution.2 with
          | fin q2 =>
            unfold finResultB
            dsimp only
            rw [isFin_iff] at hfinf
            obtain ⟨qf, hqf⟩ := hfinf
            rw [hqf, jsNeg_fin]
            rfl
          | nan =>
            have hobj := obj_nan_w2 M p res.solution q1 hs1 hs2 hval
            rw [hfres, hobj, jsLt_fin_fin, decide_eq_true_eq] at hflt
            norm_num at hflt
          | inf =>
            rw [hs1, hs2, cc_inf_w2 M q1 p qt qe2 ht hexp2f] at hcc
            exact absurd hcc (by simp)
          | ninf =>
            rw [hs2, cc_ninf_w2 M res.solution.1 p] at hcc
            exact absurd hcc (by simp)
        | nan =>
          have hobj := obj_nan_w1 M p res.solution hs1 hval
          rw [hfres, hobj, jsLt_fin_fin, decide_eq_true_eq] at hflt
          norm_num at hflt
        | inf =>
          rw [hs1, cc_inf_w1 M res.solution.2 p qm hmw] at hcc
          exact absurd hcc (by simp)
        | ninf =>
          rw [hs1, cc_ninf_w1 M res.solution.2 p] at hcc
          exact absurd hcc (by simp)

/-- Under validated parameters, a finite warm hint, at least one grid step
and an honest minimizer, every normal result of the main-thread optimization
has finite w1, w2 and utility. -/
theorem pmto_fin (M : MathFns) (mini : Minimizer) (opts : Options)
    (lastOpt : Option (JS × JS)) (lastParams : Option Params) (p : Params) (res : OptResult)
    (hhon : minimizerHonest mini) (hval : validateParameters p = true)
    (hs : 1 ≤ opts.gridSteps)
    (hwarm : ∀ a b, lastOpt = some (a, b) → isFin a = true ∧ isFin b = true)
    (hok : performMainThreadOptimization M mini opts lastOpt lastParams p = .ok res) :
    finResultB res = true := by
  unfold performMainThreadOptimization at hok
  dsimp only at hok
  split at hok
  case isFalse => exact absurd hok (by simp)
  case isTrue hsucc =>
    simp only [Except.ok.injEq] at hok
    subst hok
    obtain ⟨h1, h2, h3⟩ := gridSearchF_success M opts p
      (determineSearchSpace M opts lastOpt lastParams p)
      (searchSpace_boxFin M opts lastOpt lastParams p hval hwarm) hs hsucc
    exact refine_fin M mini opts p _ hhon hval h1 h2 h3

/-- A successful association-list lookup locates a stored pair. -/
theorem alistGet_mem (m : List (Params × CacheEntry)) (k : Params) (v : CacheEntry)
    (h : alistGet m k = some v) : (k, v) ∈ m := by
  induction m with
  | nil => simp [alistGet] at h
  | cons e rest ih =>
    unfold alistGet at h
    split at h
    · rename_i heq
      simp only [Option.some.injEq] at h
      rw [← heq, ← h]
      exact List.mem_cons.mpr (Or.inl Prod.mk.eta)
    · exact List.mem_cons_of_mem e (ih h)

/-- getFromCache never adds cache entries: every post-state map entry comes
from the pre-state map. -/
theorem getFromCache_cache_sub (opts : Options) (st : ServiceState) (key : Params)
    (now : ℕ) (e : Params × CacheEntry)
    (he : e ∈ (getFromCache opts st key now).2.cache) : e ∈ st.cache := by
  unfold getFromCache at he
  split at he
  · exact he
  · split at he
    · dsimp only at he
      unfold alistErase at he
      exact (List.mem_filter.mp he).1
    · exact he

/-- A cache hit returns the stored result of an entry present in the map. -/
theorem getFromCache_hit_mem (opts : Options) (st : ServiceState) (key : Params) (now : ℕ)
    (r : OptResult) (st1 : ServiceState)
    (h : getFromCache opts st key now = (some r, st1)) :
    ∃ c : CacheEntry, (key, c) ∈ st.cache ∧ c.result = r := by
  unfold getFromCache at h
  split at h
  · exact absurd h (by simp)
  · rename_i entry hget
    split at h
    · exact absurd h (by simp)
    · simp only [Prod.mk.injEq, Option.some.injEq] at h
      exact ⟨entry, alistGet_mem st.cache key entry hget, h.1⟩

/-- Eviction only removes map entries, never adds. -/
theorem evictRev_mem (size : ℕ) (rev : List Params) (m : List (Params × CacheEntry))
    (e : Params × CacheEntry) (h : e ∈ (evictRev size rev m).2) : e ∈ m := by
  induction rev generalizing m with
  | nil => exact h
  | cons k rest ih =>
    unfold evictRev at h
    split at h
    · exact h
    · have h2 := ih (alistErase m k) h
      unfold alistErase at h2
      exact (List.mem_filter.mp h2).1

/-- Entries of an insertion: the new pair or an original entry. -/
theorem alistInsert_mem (m : List (Params × CacheEntry)) (k : Params) (v : CacheEntry)
    (e : Params × CacheEntry) (h : e ∈ alistInsert m k v) : e = (k, v) ∨ e ∈ m := by
  unfold alistInsert at h
  split at h
  · obtain ⟨a, ha, hae⟩ := List.mem_map.mp h
    split at hae
    · exact Or.inl hae.symm
    · exact Or.inr (hae ▸ ha)
  · rcases List.mem_cons.mp h with h1 | h1
    · exact Or.inl h1
    · exact Or.inr h1

/-- The fresh service is good: empty cache and no warm hint. -/
theorem goodState_initial : GoodState initialState :=
  ⟨fun e he => absurd he (List.not_mem_nil e), fun _ _ hab => Option.noConfusion hab⟩

/-- GoodState is preserved by clearCache. -/
theorem goodState_clear (st : ServiceState) (h : GoodState st) : GoodState (clearCache st) :=
  ⟨fun e he => absurd he (List.not_mem_nil e), fun a b hab => h.2 a b hab⟩

/-- GoodState is preserved by findOptimalWealth (given an honest minimizer
and at least one grid step). -/
theorem goodState_find (M : MathFns) (mini : Minimizer) (opts : Options) (st : ServiceState)
    (p : Params) (now : ℕ) (hhon : minimizerHonest mini) (hs : 1 ≤ opts.gridSteps)
    (hgood : GoodState st) : GoodState (findOptimalWealth M mini opts st p now).2 := by
  unfold findOptimalWealth
  dsimp only
  split
  · exact hgood
  · rename_i hvalneg
    have hval : validateParameters p = true := by
      cases hb : validateParameters p
      · rw [hb] at hvalneg
        exact absurd rfl hvalneg
      · rfl
    rcases hget : getFromCache opts st (generateCacheKey p) now with ⟨o, st1⟩
    have hw1 : st1.lastOptimalResult = st.lastOptimalResult := by
      have h := (getFromCache_warm opts st (generateCacheKey p) now).1
      rw [hget] at h
      exact h
    have hsub : ∀ e, e ∈ st1.cache → e ∈ st.cache := by
      intro e he
      apply getFromCache_cache_sub opts st (generateCacheKey p) now e
      rw [hget]
      exact he
    rcases o with _ | cached
    · dsimp only
      rcases hpm : performMainThreadOptimization M mini opts st1.lastOptimalResult
          st1.lastParameters p with e | result
      · exact ⟨fun e' he' => hgood.1 e' (hsub e' he'),
               fun a b hab => hgood.2 a b (hw1.symm.trans hab)⟩
      · dsimp only
        have hwarm : ∀ a b, st1.lastOptimalResult = some (a, b) →
            isFin a = true ∧ isFin b = true := by
          intro a b hab
          exact hgood.2 a b (hw1.symm.trans hab)
        have hfinB : finResultB result = true :=
          pmto_fin M mini opts st1.lastOptimalResult st1.lastParameters p result
            hhon hval hs hwarm hpm
        have hfin2 := hfinB
        simp only [finResultB, Bool.and_eq_true] at hfin2
        obtain ⟨⟨hf1, hf2⟩, hf3⟩ := hfin2
        refine ⟨?_, ?_⟩
        · intro e' he'
          simp only [updateWarmStart, addToCache] at he'
          rcases alistInsert_mem _ _ _ _ he' with h | h
          · rw [h]
            exact hfinB
          · exact hgood.1 e' (hsub e' (evictRev_mem opts.cacheSize _ _ e' h))
        · intro a b hab
          simp only [updateWarmStart, Option.some.injEq, Prod.mk.injEq] at hab
          obtain ⟨ha, hb⟩ := hab
          exact ⟨ha ▸ hf1, hb ▸ hf2⟩
    · exact ⟨fun e' he' => hgood.1 e' (hsub e' he'),
             fun a b hab => hgood.2 a b (hw1.symm.trans hab)⟩

/-- Every state reachable from the fresh service is good. -/
theorem goodState_runOps (M : MathFns) (mini : Minimizer) (opts : Options)
    (hhon : minimizerHonest mini) (hs : 1 ≤ opts.gridSteps) (ops : List ServiceOp) :
    GoodState (runOps M mini opts ops) := by
  unfold runOps
  have h : ∀ st, GoodState st → GoodState (ops.foldl (stepOp M mini opts) st) := by
    induction ops with
    | nil => exact fun st hst => hst
    | cons op rest ih =>
      intro st hst
      rw [List.foldl_cons]
      apply ih
      cases op with
      | find p now => exact goodState_find M mini opts st p now hhon hs hst
      | clear => exact goodState_clear st hst
  exact h initialState goodState_initial

/-- Any normal result of findOptimalWealth from a good state is all-finite:
cache hits return a stored (finite) result, misses a freshly computed one. -/
theorem findOpt_fin (M : MathFns) (mini : Minimizer) (opts : Options) (st : ServiceState)
    (p : Params) (now : ℕ) (res : OptResult) (hit : Bool)
    (hhon : minimizerHonest mini) (hs : 1 ≤ opts.gridSteps) (hgood : GoodState st)
    (hok : (findOptimalWealth M mini opts st p now).1 = .ok (res, hit)) :
    finResultB res = true := by
  unfold findOptimalWealth at hok
  dsimp only at hok
  split at hok
  · exact absurd hok (by simp)
  · rename_i hvalneg
    have hval : validateParameters p = true := by
      cases hb : validateParameters p
      · rw [hb] at hvalneg
        exact absurd rfl hvalneg
      · rfl
    rcases hget : getFromCache opts st (generateCacheKey p) now with ⟨o, st1⟩
    rw [hget] at hok
    rcases o with _ | cached
    · dsimp only at hok
      have hw1 : st1.lastOptimalResult = st.lastOptimalResult := by
        have h := (getFromCache_warm opts st (generateCacheKey p) now).1
        rw [hget] at h
        exact h
      rcases hpm : performMainThreadOptimization M mini opts st1.lastOptimalResult
          st1.lastParameters p with e | result
      · rw [hpm] at hok
        exact absurd hok (by simp)
      · rw [hpm] at hok
        dsimp only at hok
        simp only [Except.ok.injEq, Prod.mk.injEq] at hok
        obtain ⟨hres, -⟩ := hok
        rw [← hres]
        exact pmto_fin M mini opts st1.lastOptimalResult st1.lastParameters p result hhon hval hs
          (fun a b hab => hgood.2 a b (hw1.symm.trans hab)) hpm
    · dsimp only at hok
      simp only [Except.ok.injEq, Prod.mk.injEq] at hok
      obtain ⟨hres, -⟩ := hok
      obtain ⟨c, hmem, hcr⟩ := getFromCache_hit_mem opts st (generateCacheKey p) now
        cached st1 hget
      have hgc := hgood.1 (generateCacheKey p, c) hmem
      dsimp only at hgc
      rw [hcr, hres] at hgc
      exact hgc

/-- Claim C1: for every service state reachable from a fresh service, when
findOptimalWealth returns normally, none of w1, w2 and utility of the
returned result is NaN or +Infinity or -Infinity (iterations is a natural
number by construction).  Hypotheses: the configured grid has at least one
step (the constructor default is 100), and the abstract minimizer standing
for numeric.uncmin reports the objective value of the solution it returns. -/
theorem claim_C1 (M : MathFns) (mini : Minimizer) (opts : Options)
    (hhon : minimizerHonest mini) (hs : 1 ≤ opts.gridSteps)
    (ops : List ServiceOp) (p : Params) (now : ℕ) (res : OptResult) (hit : Bool)
    (hok : (findOptimalWealth M mini opts (runOps M mini opts ops) p now).1 =
      .ok (res, hit)) :
    finResultB res = true :=
  findOpt_fin M mini opts (runOps M mini opts ops) p now res hit hhon hs
    (goodState_runOps M mini opts hhon hs ops) hok

/-- Witness for claim C1: the concrete fresh-service call on p0 returns
normally and every field of its result is finite. -/
theorem claim_C1_witness :
    minimizerHonest mini0 ∧ 1 ≤ optsW.gridSteps ∧
    (findOptimalWealth M0 mini0 optsW (runOps M0 mini0 optsW []) p0 0).1 =
      .ok (r0W, false) ∧
    finResultB r0W = true := by
  have hhon : minimizerHonest mini0 := by
    intro obj x0 tol maxIt r h
    injection h with h
    subst h
    rfl
  have hok : (findOptimalWealth M0 mini0 optsW (runOps M0 mini0 optsW []) p0 0).1 =
      .ok (r0W, false) := by
    rw [show runOps M0 mini0 optsW [] = initialState from rfl, w_find1]
  exact ⟨hhon, by decide, hok, claim_C1 M0 mini0 optsW hhon (by decide) [] p0 0 r0W false hok⟩

end MWT
